import Mathlib

/-!
Verification of the wall-select wallpaper catalog core: the typed JSON codec,
the database session life cycle, the directory scan, the refresh operation and
the startpage selector, modelled shallowly from `wallpaperdatabase.py`,
`lock.py` and `wall-select.py`.
-/

namespace WallSelect

/-! ## Typed codec (`wallpaperdatabase.py` lines 26-64)

Timestamps are modelled by a wall-clock value and an optional UTC offset, both
in minutes: `datetime.isoformat` writes every field of a datetime and
`datetime.fromisoformat` recovers them all, so an ISO-8601 string is
represented by its parsed content instead of by a decimal rendering. -/

/-- the reserved type-tag field name (`_TYPE_KEY = "_type"`). -/
def TYPE_KEY : String := "_type"

/-- model of a JSON string: either an ordinary string or an ISO-8601 timestamp
string represented by its parsed content (wall-clock value and optional UTC
offset in minutes). Ordinary strings are taken to not parse as ISO-8601. -/
inductive JStr where
  | raw (s : String)
  | iso (wall : Int) (offset : Option Int)
deriving DecidableEq, Repr

/-- model of a parsed JSON value (`json.load` output before the object hook).
Arrays are omitted: the persisted document never contains one. -/
inductive JVal where
  | null
  | jbool (b : Bool)
  | jint (n : Int)
  | jstr (s : JStr)
  | jobj (fields : List (String × JVal))
deriving Repr

/-- model of the Python values the codec moves between JSON and memory:
primitives, `datetime` (wall clock plus optional UTC offset, `Option.none`
meaning naive), `Path`, the nested records `_WallpaperData.Wallpaper` and
`_WallpaperData.Target`, and string-keyed dictionaries. The record fields of
`Wallpaper` are booleans as in the dataclass defaults; `Target` fields may hold
any value, as CPython dataclasses do not check field types. -/
inductive Value where
  | none
  | vbool (b : Bool)
  | vint (n : Int)
  | vstr (s : JStr)
  | dt (wall : Int) (offset : Option Int)
  | path (s : JStr)
  | wallpaper (startpage_used mobile_suitable mobile_used : Bool)
  | target (updated_at current : Value)
  | vmap (fields : List (String × Value))
deriving Repr

mutual

/-- model of `_Encoder.default` together with `json.dump`'s recursion over
containers: an object with a `__dict__` (the nested dataclasses) is written as
its fields plus the type tag, a `datetime` as `{"datetime": isoformat} | tag`,
a `Path` as `{"path": str} | tag`; primitives and dictionaries are JSON-native.
The `dict` union `obj.__dict__ | type_attr` puts the record fields first and
the tag last. -/
def encode : Value → JVal
  | .none => .null
  | .vbool b => .jbool b
  | .vint n => .jint n
  | .vstr s => .jstr s
  | .dt w o => .jobj [("datetime", .jstr (.iso w o)), (TYPE_KEY, .jstr (.raw "datetime"))]
  | .path s => .jobj [("path", .jstr s), (TYPE_KEY, .jstr (.raw "PosixPath"))]
  | .wallpaper a b c =>
      .jobj [("startpage_used", .jbool a), ("mobile_suitable", .jbool b),
        ("mobile_used", .jbool c), (TYPE_KEY, .jstr (.raw "Wallpaper"))]
  | .target u c =>
      .jobj [("updated_at", encode u), ("current", encode c), (TYPE_KEY, .jstr (.raw "Target"))]
  | .vmap fs => .jobj (encodeFields fs)

/-- encoding of a dictionary's entries, in order. -/
def encodeFields : List (String × Value) → List (String × JVal)
  | [] => []
  | (k, v) :: rest => (k, encode v) :: encodeFields rest

end

/-- model of a raw Python exception escaping the decoder hook. -/
inductive PyError where
  | keyError
  | valueError
  | typeError
  | attributeError (tag : JStr)
deriving DecidableEq, Repr

/-- dictionary field access (`obj[k]`); the hook always receives a parsed JSON
object, whose keys CPython deduplicates, so first-occurrence lookup agrees
with it. -/
def lookupField (k : String) : List (String × Value) → Option Value
  | [] => Option.none
  | (k2, v) :: rest => if k2 = k then some v else lookupField k rest

/-- dictionary key deletion (`del obj[k]`); on duplicate-free keys this is
exactly CPython's deletion. -/
def eraseField (k : String) : List (String × Value) → List (String × Value)
  | [] => []
  | (k2, v) :: rest => if k2 = k then eraseField k rest else (k2, v) :: eraseField k rest

/-- model of `datetime.astimezone()` on a host whose UTC offset is `tz`
minutes: a naive value is assumed to be local time and is tagged with `tz`; an
aware value is converted to the equivalent local wall-clock time. -/
def astimezone (tz : Int) (wall : Int) : Option Int → Value
  | Option.none => .dt wall (some tz)
  | some o => .dt (wall - o + tz) (some tz)

/-- model of `_WallpaperData.Wallpaper(**fields)`: every missing field takes
its dataclass default `False`, an unexpected keyword raises TypeError. The
model's `Wallpaper` stores booleans, so a non-boolean field value falls outside
the embedding and is also mapped to `typeError` (CPython would store it
unchecked; no theorem below touches that corner). -/
def mkWallpaper (fs : List (String × Value)) : Except PyError Value :=
  if fs.all (fun kv =>
      kv.1 == "startpage_used" || kv.1 == "mobile_suitable" || kv.1 == "mobile_used") then
    match (lookupField "startpage_used" fs).getD (.vbool false),
        (lookupField "mobile_suitable" fs).getD (.vbool false),
        (lookupField "mobile_used" fs).getD (.vbool false) with
    | .vbool a, .vbool b, .vbool c => .ok (.wallpaper a b c)
    | _, _, _ => .error .typeError
  else .error .typeError

/-- model of `_WallpaperData.Target(**fields)`: missing fields default to
`None`, an unexpected keyword raises TypeError. -/
def mkTarget (fs : List (String × Value)) : Except PyError Value :=
  if fs.all (fun kv => kv.1 == "updated_at" || kv.1 == "current") then
    .ok (.target ((lookupField "updated_at" fs).getD .none)
      ((lookupField "current" fs).getD .none))
  else .error .typeError

/-- model of `_Decoder.decode` with `data_class = WallpaperDatabase`: an object
without the tag key is returned unchanged; otherwise the tag is removed and
dispatched. The source's `case self.data_class:` compares the tag string with
the class object itself, which no string ever equals, so that branch is dead
and omitted here. For any other tag the source evaluates
`getattr(WallpaperDatabase, tag)(**obj)`: the tags `"Wallpaper"` and
`"Target"` resolve to the nested record classes; any other tag raises
AttributeError (the model folds in the out-of-image corner of a tag naming
some other class attribute, where CPython raises TypeError from the call
instead — in either case a raw exception, never a DatabaseDecodeError). A
non-string tag reaches `getattr` as well and raises TypeError. -/
def decodeHook (tz : Int) (fs : List (String × Value)) : Except PyError Value :=
  match lookupField TYPE_KEY fs with
  | Option.none => .ok (.vmap fs)
  | some tagv =>
    let rest := eraseField TYPE_KEY fs
    match tagv with
    | .vstr (.raw "datetime") =>
      match lookupField "datetime" rest with
      | some (.vstr (.iso w o)) => .ok (astimezone tz w o)
      | some (.vstr (.raw _)) => .error .valueError
      | some _ => .error .typeError
      | Option.none => .error .keyError
    | .vstr (.raw "PosixPath") =>
      match lookupField "path" rest with
      | some (.vstr s) => .ok (.path s)
      | some _ => .error .typeError
      | Option.none => .error .keyError
    | .vstr (.raw "Wallpaper") => mkWallpaper rest
    | .vstr (.raw "Target") => mkTarget rest
    | .vstr t => .error (.attributeError t)
    | _ => .error .typeError

mutual

/-- model of `json.load(..., object_hook=_Decoder(WallpaperDatabase).decode)`
on an already well-formed JSON value: the hook runs on every object, innermost
first. -/
def jsonLoad (tz : Int) : JVal → Except PyError Value
  | .null => .ok .none
  | .jbool b => .ok (.vbool b)
  | .jint n => .ok (.vint n)
  | .jstr s => .ok (.vstr s)
  | .jobj fs =>
    match loadFields tz fs with
    | .ok vs => decodeHook tz vs
    | .error e => .error e

/-- decoding of an object's fields, in order, innermost first. -/
def loadFields (tz : Int) : List (String × JVal) → Except PyError (List (String × Value))
  | [] => .ok []
  | (k, v) :: rest =>
    match jsonLoad tz v with
    | .error e => .error e
    | .ok v2 =>
      match loadFields tz rest with
      | .error e => .error e
      | .ok r2 => .ok ((k, v2) :: r2)

end

mutual

/-- the image of a value after one save/load cycle: every timestamp is pushed
through `astimezone`, everything else is unchanged. -/
def normalize (tz : Int) : Value → Value
  | .dt w o => astimezone tz w o
  | .target u c => .target (normalize tz u) (normalize tz c)
  | .vmap fs => .vmap (normalizeFields tz fs)
  | v => v

/-- pointwise `normalize` over a dictionary's entries. -/
def normalizeFields (tz : Int) : List (String × Value) → List (String × Value)
  | [] => []
  | (k, v) :: rest => (k, normalize tz v) :: normalizeFields tz rest

end

mutual

/-- dictionaries nowhere use the reserved tag key (CPython would mistake them
for tagged records when reloading). -/
def goodKeys : Value → Bool
  | .target u c => goodKeys u && goodKeys c
  | .vmap fs => goodKeysFields fs
  | _ => true

/-- field-list form of `goodKeys`. -/
def goodKeysFields : List (String × Value) → Bool
  | [] => true
  | (k, v) :: rest => (k != TYPE_KEY) && goodKeys v && goodKeysFields rest

end

mutual

/-- every timestamp inside the value is timezone-aware. -/
def awareOnly : Value → Bool
  | .dt _ o => o.isSome
  | .target u c => awareOnly u && awareOnly c
  | .vmap fs => awareFields fs
  | _ => true

/-- field-list form of `awareOnly`. -/
def awareFields : List (String × Value) → Bool
  | [] => true
  | (_, v) :: rest => awareOnly v && awareFields rest

end

mutual

/-- model of Python `==` on supported values: a naive and an aware datetime are
never equal, two aware datetimes compare by instant (wall clock minus offset),
two naive ones by wall clock; records compare field by field; dictionaries
compare pointwise in order (the round-trip theorems only ever compare
identically-ordered dictionaries, where pointwise comparison agrees with
CPython's order-insensitive dict equality). -/
def pyEq : Value → Value → Bool
  | .none, .none => true
  | .vbool a, .vbool b => a == b
  | .vint a, .vint b => a == b
  | .vstr a, .vstr b => a == b
  | .dt w1 Option.none, .dt w2 Option.none => w1 == w2
  | .dt w1 (some o1), .dt w2 (some o2) => w1 - o1 == w2 - o2
  | .path a, .path b => a == b
  | .wallpaper a b c, .wallpaper d e f => a == d && b == e && c == f
  | .target u1 c1, .target u2 c2 => pyEq u1 u2 && pyEq c1 c2
  | .vmap fs1, .vmap fs2 => pyEqFields fs1 fs2
  | _, _ => false

/-- pointwise `pyEq` over dictionary entries. -/
def pyEqFields : List (String × Value) → List (String × Value) → Bool
  | [], [] => true
  | (k1, v1) :: r1, (k2, v2) :: r2 => k1 == k2 && pyEq v1 v2 && pyEqFields r1 r2
  | _, _ => false

end

/-- the session-level error taxonomy (`DatabaseError` subclasses), plus
`uncaught` for a raw Python exception escaping the decoder hook, which no
`except` clause in `_open` converts. -/
inductive DbError where
  | modeError
  | existsError
  | readError
  | lockError
  | decodeError
  | writeError
  | uncaught (e : PyError)
deriving DecidableEq, Repr

/-- model of the read phase of `WallpaperDatabase._open` (lines 187-195): a
text that is not well-formed JSON raises `json.JSONDecodeError`, converted to
`DatabaseDecodeError`; an exception raised by the object hook propagates
unchanged. `text` is `Option.none` for a malformed text and `some j` for a
text that parses to `j`. -/
def openReadPhase (tz : Int) (text : Option JVal) : Except DbError Value :=
  match text with
  | Option.none => .error .decodeError
  | some j =>
    match jsonLoad tz j with
    | .ok v => .ok v
    | .error e => .error (.uncaught e)

/-! ## Session life cycle (`wallpaperdatabase.py` lines 144-213, `lock.py`) -/

/-- the in-memory session resources: whether the scope is write-back
(`_writeback`), whether the lock is held (`FileLock._locked`) and whether the
descriptor has been closed. -/
structure SessionS where
  writeback : Bool
  locked : Bool
  fdClosed : Bool
deriving DecidableEq, Repr

/-- observable teardown actions, in execution order. -/
inductive TdEvent where
  | save
  | unlock
  | unlockWarn
  | closeFd
deriving DecidableEq, Repr

/-- model of `WallpaperDatabase.close` (lines 206-213): release the lock if
held — an OSError from the release is caught and downgraded to a warning
(`unlockWarn`, not propagated; `FileLock.release` raises before clearing
`_locked`, which therefore stays set) — then close the descriptor if still
open. -/
def closeSession (unlockFails : Bool) (s : SessionS) : SessionS × List TdEvent :=
  let (s1, ev1) :=
    if s.locked then
      if unlockFails then (s, [TdEvent.unlockWarn])
      else ({ s with locked := false }, [TdEvent.unlock])
    else (s, ([] : List TdEvent))
  if s1.fdClosed then (s1, ev1) else ({ s1 with fdClosed := true }, ev1 ++ [TdEvent.closeFd])

/-- model of `WallpaperDatabase.save` (lines 197-204): seek to the start,
truncate, dump the record over the file's whole content; an OSError from the
dump is converted to `DatabaseWriteError`. `dumpFails` abstracts the I/O
outcome. -/
def saveSession (dumpFails : Bool) (s : SessionS) : Except DbError (SessionS × List TdEvent) :=
  if dumpFails then .error .writeError else .ok (s, [TdEvent.save])

/-- model of `WallpaperDatabase.__enter__` (lines 151-154): any mode other
than `"r"` makes the session write-back. -/
def enterSession (mode : String) (s : SessionS) : SessionS :=
  if mode = "r" then s else { s with writeback := true }

/-- model of `WallpaperDatabase.__exit__` (lines 156-159): the record is saved
only when no exception is in flight (`excNone = true`) and the session is
write-back; `self.close()` then runs — except when the save itself raises,
since `__exit__` wraps it in no try/finally. -/
def exitSession (excNone dumpFails unlockFails : Bool) (s : SessionS) :
    Except DbError (SessionS × List TdEvent) :=
  if excNone && s.writeback then
    match saveSession dumpFails s with
    | .error e => .error e
    | .ok (s1, ev1) =>
      let (s2, ev2) := closeSession unlockFails s1
      .ok (s2, ev1 ++ ev2)
  else
    let (s2, ev2) := closeSession unlockFails s
    .ok (s2, ev2)

/-- the four recognized database modes mapped to Python file-open modes
(lines 163-168: `"r"→"r"`, `"w"→"r+"`, `"n"→"w+"`, `"c"→"x"`); an unknown
string hits the KeyError branch, converted to `DatabaseModeError`. -/
def modeTable (m : String) : Option String :=
  if m = "r" then some "r"
  else if m = "w" then some "r+"
  else if m = "n" then some "w+"
  else if m = "c" then some "x"
  else Option.none

/-- the observable outcome of a successful `_open`: the lock kind that was
acquired and whether the document was read and decoded. -/
structure OpenedSession where
  lockShared : Bool
  readContent : Bool
deriving DecidableEq, Repr, Fintype

deriving instance DecidableEq for Except

/-- model of `WallpaperDatabase._open` (lines 161-195) with
`FileLock.__init__`/`acquire` (`lock.py` lines 5-21). The filesystem is
abstracted by four booleans: `fileExists` (the database file exists), `osFail`
(the open fails with some other OSError, e.g. permissions), `lockFail` (the
flock call raises OSError) and `jsonBad` (the file's text is not well-formed
JSON). `FileExistsError` is a subclass of OSError and is caught by its own
clause before the general one, as in the source; Python mode `"x"` raises it
on an existing file, modes `"r"`/`"r+"` raise FileNotFoundError on a missing
one. The lock is shared exactly when the database mode is `"r"`
(`FileLock(self._file_object, self._mode == "r")`), and only modes `"r"` and
`"w"` read and decode the document. -/
def dbOpen (m : String) (fileExists osFail lockFail jsonBad : Bool) :
    Except DbError OpenedSession :=
  match modeTable m with
  | Option.none => .error .modeError
  | some pyMode =>
    if pyMode = "x" && fileExists then .error .existsError
    else if (pyMode = "r" || pyMode = "r+") && !fileExists then .error .readError
    else if osFail then .error .readError
    else if lockFail then .error .lockError
    else if m = "r" || m = "w" then
      if jsonBad then .error .decodeError
      else .ok { lockShared := m == "r", readContent := true }
    else .ok { lockShared := m == "r", readContent := false }

/-! ## Directory scan (`_list_wallpapers`, lines 297-311) -/

/-- a path segment (one component of a filesystem path), as its characters. -/
abbrev Seg := List Char

/-- a filesystem path as its list of segments (`PurePath.parts`). -/
abbrev PPath := List Seg

/-- a wallpaper key: the characters of `str(file)[dir_len:]`. -/
abbrev Key := List Char

/-- model of `str(path)`: the segments joined by `/`. -/
def pathStr : PPath → List Char
  | [] => []
  | [p] => p
  | p :: q :: rest => p ++ '/' :: pathStr (q :: rest)

/-- model of `part[0] == "."` on a path segment (pathlib components are never
empty). -/
def hiddenSeg : Seg → Bool
  | [] => false
  | c :: _ => c == '.'

/-- model of `PurePath.suffix` of a file name: `name[i:]` for the last index
`i` of a dot when `0 < i < len(name) - 1`, else the empty string (so a leading
dot alone or a trailing dot yields no suffix). -/
def pySuffix (name : Seg) : Seg :=
  match ((List.range name.length).filter (fun i => name.getD i ' ' == '.')).getLast? with
  | Option.none => []
  | some i => if 0 < i && i < name.length - 1 then name.drop i else []

/-- the image-extension tuple `(".png", ".jpeg", ".jpg", ".gif")`. -/
def imageSuffixes : List Seg := [".png".toList, ".jpeg".toList, ".jpg".toList, ".gif".toList]

/-- spec-side filter, for refinement comparison only (modelled from the spec's
words, not from the source): a file is eligible when its relative path under
the base directory has no hidden segment and its extension is an image
extension. -/
def specEligibleRel (rel : PPath) : Bool :=
  !rel.any hiddenSeg && imageSuffixes.contains (pySuffix (rel.getLastD []))

/-- model of `_list_wallpapers` (lines 297-311). `directory.rglob("*")` is
abstracted by `walk`, the list of paths the recursive walk yields (each entry
extends the directory's own segments; rglob yields directories as well as
files — the function never checks which). An entry is skipped when any segment
of the whole path — including the base directory's own segments, since
`file.parts` contains them — starts with a dot, or when its final component's
suffix is not an image extension; a kept entry is recorded as
`str(file)[len(str(directory)) + 1 :]`. -/
def listWallpapers (directory : PPath) (walk : List PPath) : List Key :=
  let dirLen := (pathStr directory).length + 1
  (walk.filter (fun file =>
      !(file.any hiddenSeg || !imageSuffixes.contains (pySuffix (file.getLastD []))))).map
    (fun file => (pathStr file).drop dirLen)

/-! ## Catalog record and `refresh` (lines 118-136, 257-294) -/

/-- model of `_WallpaperData.Wallpaper`. -/
structure Wallp where
  startpage_used : Bool
  mobile_suitable : Bool
  mobile_used : Bool
deriving DecidableEq, Repr

/-- the dataclass defaults, `Wallpaper()`. -/
def Wallp.default : Wallp := ⟨false, false, false⟩

/-- model of `_WallpaperData.Target` as the selector writes it: an optional
timestamp and the currently installed wallpaper's full path. -/
structure TargetS where
  updated_at : Option Int
  current : Option Key
deriving DecidableEq, Repr

/-- model of the `CatalogRecord` fields that `create`, `refresh` and the
selector read or write. Entries have value semantics, as established by every
save/load cycle (the decoder builds a separate `Wallpaper` per key; the
transient aliasing that `dict.fromkeys(walls, Wallpaper())` creates inside a
single `create`/`refresh` call is never observed, because those calls only
ever store default values). -/
structure Catalog where
  base_directory : PPath
  wallpapers : List (Key × Wallp)
  updated_at : Option Int
  created_at : Option Int
  should_update : Bool
  startpage : TargetS
deriving DecidableEq, Repr

/-- model of `create` (lines 257-277) after its directory checks, on the fresh
record of a `"c"`/`"n"` session: build the eligible list, give every key a
default entry (`dict.fromkeys` keeps one entry per distinct key) and record
the creation time. -/
def create (base_directory : PPath) (walk : List PPath) (now : Int) : Catalog :=
  { base_directory := base_directory
    wallpapers := (listWallpapers base_directory walk).dedup.map (fun k => (k, Wallp.default))
    updated_at := Option.none
    created_at := some now
    should_update := false
    startpage := ⟨Option.none, Option.none⟩ }

/-- the on-disk eligible set recomputed by `refresh`:
`set(_list_wallpapers(db.base_directory))`, with `walk` standing for what
`rglob` yields under the stored base directory (for an absent directory
`rglob` yields nothing and raises nothing; `refresh` performs no existence
check of its own). The `set(...)` is modelled as a duplicate-free list;
CPython's set iteration order is arbitrary and the model's list order stands
in for it — the theorems only use membership and counts. -/
def walls_disk (walk : List PPath) (db : Catalog) : List Key :=
  (listWallpapers db.base_directory walk).dedup

/-- the stored key set, `set(db.wallpapers.keys())` (the keys of a dict are
already distinct). -/
def walls_db (db : Catalog) : List Key :=
  db.wallpapers.map Prod.fst

/-- the keys dropped by `refresh`: stored but no longer on disk
(`walls_db.difference(walls_disk)`). -/
def walls_deleted (walk : List PPath) (db : Catalog) : List Key :=
  (walls_db db).filter (fun k => !(walls_disk walk db).contains k)

/-- the keys inserted by `refresh`: on disk but not stored
(`walls_disk.difference(walls_db)`). -/
def walls_new (walk : List PPath) (db : Catalog) : List Key :=
  (walls_disk walk db).filter (fun k => !(walls_db db).contains k)

/-- model of `refresh` (lines 280-294) on the open read-write session:
`dict.update` appends the new keys with default entries, then the vanished
keys are deleted and `updatedAt` is set; the counts `(new, deleted)` are
returned. -/
def refresh (walk : List PPath) (now : Int) (db : Catalog) : Catalog × Nat × Nat :=
  let db1 := { db with
    wallpapers :=
      (db.wallpapers ++ (walls_new walk db).map (fun k => (k, Wallp.default))).filter
        (fun kv => !(walls_deleted walk db).contains kv.1)
    updated_at := some now }
  (db1, (walls_new walk db).length, (walls_deleted walk db).length)

/-! ## Startpage selector (`set_startpage`, lines 314-364) -/

/-- errors raised by `set_startpage` (both are `StartpageSetError`). -/
inductive SpError where
  | noAvailable
  | noValid
deriving DecidableEq, Repr

/-- whether `ex` starts `p`. -/
def atHead : List Char → List Char → Bool
  | [], _ => true
  | _ :: _, [] => false
  | a :: as, b :: bs => a == b && atHead as bs

/-- model of Python's substring test `ex in p`. -/
def substrIn : List Char → List Char → Bool
  | ex, [] => atHead ex []
  | ex, b :: rest => atHead ex (b :: rest) || substrIn ex rest

/-- a key is dropped when it contains any exclusion substring
(`any(ex in p for ex in exclusions)`, lines 338-340). -/
def isExcluded (exclusions : List Key) (p : Key) : Bool :=
  exclusions.any (fun ex => substrIn ex p)

/-- set one entry's flag (`db.wallpapers[wall_new].startpage_used = True`);
on the duplicate-free key lists of a decoded record this is exactly the dict
assignment. -/
def setUsed (k : Key) : List (Key × Wallp) → List (Key × Wallp)
  | [] => []
  | (k2, w) :: rest =>
    if k2 = k then (k2, { w with startpage_used := true }) :: setUsed k rest
    else (k2, w) :: setUsed k rest

/-- state threaded through one round of `_set_startpage`: the shrinking
`walls_unused` list, the open record and the remaining random draws, plus a
ghost log of the keys found missing on disk (an observation for the theorems,
not program data). -/
structure RoundSt where
  unused : List Key
  db : Catalog
  oracle : List Nat
  missingLog : List Key
deriving DecidableEq, Repr

/-- model of the loop of `_set_startpage` (lines 316-335). The source computes
`range(len(walls_unused))` once; every failing iteration removes exactly one
element, so the `fuel` argument — the length at entry — bounds the iterations
and the empty-list case is unreachable whenever `fuel` is exact.
`random.choice(walls_unused)` draws the element indexed by the next oracle
value, reduced mod the current length; `disk` is the set of keys whose file
`db.base_directory / key` exists. On a hit the file is installed at the
destination (atomically, via a temporary symlink and rename), the entry's
flag is set and `startpage` is updated, and the loop reports the chosen key;
on a miss the key is removed (`list.remove`, first occurrence),
`should_update` is set and a warning is emitted. -/
def spRound (disk : List Key) (now : Int) : Nat → RoundSt → Option Key × RoundSt
  | 0, st => (Option.none, st)
  | Nat.succ fuel, st =>
    match st.unused with
    | [] => (Option.none, st)
    | u :: us =>
      let wall_new := (u :: us).getD (st.oracle.headD 0 % (u :: us).length) u
      if disk.contains wall_new then
        (some wall_new,
          { st with
            db := { st.db with
              wallpapers := setUsed wall_new st.db.wallpapers
              startpage := ⟨some now, some (pathStr st.db.base_directory ++ '/' :: wall_new)⟩ }
            oracle := st.oracle.tail })
      else
        spRound disk now fuel
          { st with
            unused := (u :: us).erase wall_new
            db := { st.db with should_update := true }
            oracle := st.oracle.tail
            missingLog := wall_new :: st.missingLog }

/-- the outcome of a successful `set_startpage` call: the record as saved on
exit, the Python return value (`set_startpage` ends without a `return`
statement, so it is always `None`), and the ghost observations: which key was
installed, which keys were found missing (latest first) and whether the
flag-reset branch ran. -/
structure SelOut where
  db : Catalog
  retval : Option Key
  installed : Key
  missing : List Key
  didReset : Bool
deriving DecidableEq, Repr

/-- the non-excluded entries, `{k: db.wallpapers[k] for k in walls_filtered}`
(dict iteration in insertion order). -/
def walls_included (exclusions : List Key) (db : Catalog) : List (Key × Wallp) :=
  db.wallpapers.filter (fun kv => !isExcluded exclusions kv.1)

/-- the round-one attempt set: included keys whose flag `is False` (the flag
is a genuine boolean in the decoded record, so `is False` coincides with
equality to `False`). -/
def walls_unused (exclusions : List Key) (db : Catalog) : List Key :=
  ((walls_included exclusions db).filter (fun kv => kv.2.startpage_used == false)).map Prod.fst

/-- the reset in the `elif` branch: every entry of `db.wallpapers` — included
or not — gets `startpage_used = False`. -/
def resetFlags (db : Catalog) : Catalog :=
  { db with
    wallpapers := db.wallpapers.map (fun kv => (kv.1, { kv.2 with startpage_used := false })) }

/-- model of `set_startpage` (lines 314-364) on the open read-write session:
filter the keys through the exclusion list and fail with `noAvailable` when
nothing remains; build `walls_unused` from the entries whose flag `is False`;
run a round. When a round fails it has necessarily emptied `walls_unused`, so
the `elif` branch resets every entry's flag (over all of `db.wallpapers`, not
just the included ones), rebuilds `walls_unused` as all included keys and runs
a second and final round; if that also fails, `noValid` is raised and —
because `__exit__` skips the save when an exception is in flight — the mutated
record is discarded. -/
def set_startpage (disk : List Key) (now : Int) (oracle : List Nat)
    (exclusions : List Key) (db : Catalog) : Except SpError SelOut :=
  if (walls_included exclusions db).length = 0 then .error .noAvailable
  else
    match spRound disk now (walls_unused exclusions db).length
        ⟨walls_unused exclusions db, db, oracle, []⟩ with
    | (some k, st) => .ok ⟨st.db, Option.none, k, st.missingLog, false⟩
    | (Option.none, st) =>
      match spRound disk now ((walls_included exclusions db).map Prod.fst).length
          ⟨(walls_included exclusions db).map Prod.fst, resetFlags st.db, st.oracle,
            st.missingLog⟩ with
      | (some k, st2) => .ok ⟨st2.db, Option.none, k, st2.missingLog, true⟩
      | (Option.none, _) => .error .noValid

/-- consecutive successful selections: one `set_startpage` call per oracle
stream, threading the record that each call's session saves, collecting the
installed keys in order. -/
def runSelections (disk : List Key) (now : Int) (exclusions : List Key) :
    List (List Nat) → Catalog → Except SpError (Catalog × List Key)
  | [], db => .ok (db, [])
  | oracle :: rest, db =>
    match set_startpage disk now oracle exclusions db with
    | .error e => .error e
    | .ok out =>
      match runSelections disk now exclusions rest out.db with
      | .error e => .error e
      | .ok (db2, ks) => .ok (db2, out.installed :: ks)

/-- the eligible pool: catalog keys that are neither excluded nor missing on
disk. -/
def eligibleKeys (disk : List Key) (exclusions : List Key) (db : Catalog) : List Key :=
  (db.wallpapers.map Prod.fst).filter (fun k => disk.contains k && !isExcluded exclusions k)

/-- model of interpolating a Python value into an f-string: `None` prints as
`"None"`. -/
def pyFormatRet : Option Key → List Char
  | Option.none => "None".toList
  | some k => k

/-- model of `set_startpage_wallpaper` (`wall-select.py` lines 115-119): the
printed success message interpolates the return value of
`wdb.set_startpage`. -/
def setStartpageMessage (retval : Option Key) : List Char :=
  "Startpage set!\n".toList ++ pyFormatRet retval

/-! ## Helper lemmas -/

theorem pathStr_append (d r : PPath) (hd : d ≠ []) (hr : r ≠ []) :
    pathStr (d ++ r) = pathStr d ++ '/' :: pathStr r := by
  induction d with
  | nil => cases hd rfl
  | cons a d ih =>
    cases d with
    | nil =>
      cases r with
      | nil => cases hr rfl
      | cons b bs => simp [pathStr]
    | cons c cs =>
      have h := ih (by simp)
      simp only [List.cons_append] at h ⊢
      simp [pathStr, h]

theorem getLastD_ne_nil (r : PPath) (x y : Seg) (hr : r ≠ []) : r.getLastD x = r.getLastD y := by
  cases r with
  | nil => cases hr rfl
  | cons b bs => rfl

theorem getLastD_append (d r : PPath) (x : Seg) (hr : r ≠ []) :
    (d ++ r).getLastD x = r.getLastD x := by
  induction d generalizing x with
  | nil => rfl
  | cons a d ih =>
    rw [List.cons_append, List.getLastD_cons, ih a]
    exact getLastD_ne_nil r a x hr

theorem drop_pathStr (d r : List Char) : (d ++ '/' :: r).drop (d.length + 1) = r := by
  rw [show d ++ '/' :: r = (d ++ ['/']) ++ r by simp,
    show d.length + 1 = (d ++ ['/']).length by simp, List.drop_left]

theorem listWallpapers_cons (directory : PPath) (x : PPath) (xs : List PPath) :
    listWallpapers directory (x :: xs) =
      (if !(x.any hiddenSeg || !imageSuffixes.contains (pySuffix (x.getLastD []))) then
        [(pathStr x).drop ((pathStr directory).length + 1)]
      else []) ++ listWallpapers directory xs := by
  simp only [listWallpapers, List.filter_cons]
  split <;> simp

/-! ## C5 -/

/-- C5: the claim fails: the filter of `_list_wallpapers` runs over
`file.parts`, which includes the base directory's own segments, so a hidden
ancestor segment excludes a file whose relative path is perfectly eligible.
Here the base directory is `.d`, the file is `.d/a.png`: its relative path
`a.png` has no hidden segment and an image extension, yet the list is empty. -/
theorem c5_counterexample :
    listWallpapers [".d".toList] [[".d".toList, "a.png".toList]] = [] ∧
    specEligibleRel ["a.png".toList] = true := by decide

/-- C5 (amended): the eligibility filter applies to every segment of the full
path, the base directory's own segments included. When no segment of
`baseDirectory` is hidden the list is exactly the claim's relative-path
filter — recursive-walk entries whose relative path has no hidden segment and
an image extension, keyed by the relative path string; when `baseDirectory`'s
own path contains a hidden segment the list is always empty. -/
theorem c5_eligible_list (directory : PPath) (rels : List PPath)
    (hd : directory ≠ []) (hr : ∀ r ∈ rels, r ≠ []) :
    listWallpapers directory (rels.map (directory ++ ·)) =
      if directory.any hiddenSeg then []
      else (rels.filter specEligibleRel).map pathStr := by
  induction rels with
  | nil => cases h : directory.any hiddenSeg <;> simp [listWallpapers, h]
  | cons r rs ih =>
    have hrr : r ≠ [] := hr r (by simp)
    have ihh := ih (fun q hq => hr q (by simp [hq]))
    rw [List.map_cons, listWallpapers_cons, ihh]
    rw [pathStr_append directory r hd hrr, drop_pathStr,
      getLastD_append directory r [] hrr]
    cases h : directory.any hiddenSeg with
    | true => simp [List.any_append, h]
    | false =>
      have hcond : (!((directory ++ r).any hiddenSeg ||
          !imageSuffixes.contains (pySuffix (r.getLastD [])))) = specEligibleRel r := by
        rw [List.any_append, h]
        simp [specEligibleRel, Bool.not_or]
      rw [hcond, List.filter_cons]
      cases hsp : specEligibleRel r <;> simp [hsp]

/-- C5 witness: a clean base directory with one eligible and one
hidden-relative entry. -/
theorem c5_eligible_list_witness :
    listWallpapers ["d".toList] ([["a.png".toList], [".h".toList, "b.jpg".toList]].map (["d".toList] ++ ·)) =
      if (["d".toList] : PPath).any hiddenSeg then []
      else ([["a.png".toList], [".h".toList, "b.jpg".toList]].filter specEligibleRel).map pathStr :=
  c5_eligible_list ["d".toList] [["a.png".toList], [".h".toList, "b.jpg".toList]]
    (by decide) (by decide)

/-! ## C3 -/

/-- C3: the claim fails: on the exception exit path of a read-write session
the record is not serialized — `__exit__` saves only when `exc_type is None`.
Concretely, a write-back session holding the lock, torn down with an exception
in flight, runs unlock and close but no save, and the file keeps its previous
content. -/
theorem c3_counterexample :
    exitSession false false false ⟨true, true, false⟩ =
      .ok (⟨true, false, true⟩, [TdEvent.unlock, TdEvent.closeFd]) ∧
    TdEvent.save ∉ [TdEvent.unlock, TdEvent.closeFd] := by
  exact ⟨rfl, by decide⟩

/-- C3 (amended): for a read-write (write-back) session holding its lock, the
teardown is: on normal completion, save then unlock then close, where an
unlock failure is downgraded to a non-fatal warning and the descriptor is
closed regardless; on an exception raised during use, the save step is skipped
and only unlock-then-close run; and when the save itself fails,
`DatabaseWriteError` propagates and neither unlock nor close runs. -/
theorem c3_teardown (excNone dumpFails unlockFails : Bool) :
    exitSession excNone dumpFails unlockFails ⟨true, true, false⟩ =
      if excNone && dumpFails then .error .writeError
      else
        .ok (⟨true, unlockFails, true⟩,
          (if excNone then [TdEvent.save] else []) ++
            (if unlockFails then [TdEvent.unlockWarn] else [TdEvent.unlock]) ++
            [TdEvent.closeFd]) := by
  cases excNone <;> cases dumpFails <;> cases unlockFails <;> rfl

/-! ## C8 -/

/-- C8: opening a session fails with exactly the error matching the failure:
`ModeError` for a mode string other than the four recognized ones;
`ExistsError` when create-if-absent (`"c"`) finds the file existing;
`ReadError` on any other open failure (a missing file for `"r"`/`"w"`, or
another OSError for any mode); `LockError` when the flock acquisition fails;
`DecodeError` on malformed JSON in the reading modes `"r"`/`"w"` and never in
`"c"`/`"n"`; and the acquired lock is shared exactly for read-only mode
`"r"`. -/
theorem c8_open_errors :
    (∀ m fe osF lockF jsonB, m ≠ "r" → m ≠ "w" → m ≠ "c" → m ≠ "n" →
      dbOpen m fe osF lockF jsonB = .error .modeError) ∧
    (∀ osF lockF jsonB, dbOpen "c" true osF lockF jsonB = .error .existsError) ∧
    (∀ lockF jsonB, dbOpen "r" false false lockF jsonB = .error .readError ∧
      dbOpen "w" false false lockF jsonB = .error .readError) ∧
    (∀ lockF jsonB fe, dbOpen "r" true true lockF jsonB = .error .readError ∧
      dbOpen "w" true true lockF jsonB = .error .readError ∧
      dbOpen "c" false true lockF jsonB = .error .readError ∧
      dbOpen "n" fe true lockF jsonB = .error .readError) ∧
    (∀ jsonB fe, dbOpen "r" true false true jsonB = .error .lockError ∧
      dbOpen "w" true false true jsonB = .error .lockError ∧
      dbOpen "c" false false true jsonB = .error .lockError ∧
      dbOpen "n" fe false true jsonB = .error .lockError) ∧
    (dbOpen "r" true false false true = .error .decodeError ∧
      dbOpen "w" true false false true = .error .decodeError) ∧
    (∀ fe osF lockF jsonB out,
      dbOpen "c" fe osF lockF jsonB ≠ .error .decodeError ∧
      dbOpen "n" fe osF lockF jsonB ≠ .error .decodeError ∧
      (dbOpen "r" fe osF lockF jsonB = .ok out → out.lockShared = true) ∧
      (dbOpen "w" fe osF lockF jsonB = .ok out → out.lockShared = false) ∧
      (dbOpen "c" fe osF lockF jsonB = .ok out → out.lockShared = false) ∧
      (dbOpen "n" fe osF lockF jsonB = .ok out → out.lockShared = false)) := by
  refine ⟨?_, ?_, ?_, ?_, ?_, ?_, ?_⟩
  · intro m fe osF lockF jsonB h1 h2 h3 h4
    simp [dbOpen, modeTable, h1, h2, h3, h4]
  · intro osF lockF jsonB; rfl
  · intro lockF jsonB; exact ⟨rfl, rfl⟩
  · intro lockF jsonB fe
    refine ⟨rfl, rfl, rfl, ?_⟩
    cases fe <;> rfl
  · intro jsonB fe
    refine ⟨?_, ?_, rfl, ?_⟩
    · cases jsonB <;> rfl
    · cases jsonB <;> rfl
    · cases fe <;> cases jsonB <;> rfl
  · exact ⟨rfl, rfl⟩
  · intro fe osF lockF jsonB
    cases fe <;> cases osF <;> cases lockF <;> cases jsonB <;> decide

/-- C8 witness: an unrecognized mode string fails with `ModeError`, and a
successfully opened write session has taken an exclusive lock. -/
theorem c8_open_errors_witness :
    dbOpen "z" true false false false = .error .modeError ∧
    OpenedSession.lockShared ⟨false, true⟩ = false :=
  ⟨c8_open_errors.1 "z" true false false false (by decide) (by decide) (by decide) (by decide),
    (c8_open_errors.2.2.2.2.2.2 true false false false ⟨false, true⟩).2.2.2.1 rfl⟩

/-! ## C9 -/

/-- C9: `refresh` makes no existence check of the stored base directory and
cannot raise `DirectoryNotFoundError` (only `create` does): it is a total
function of the walk, and with the walk empty — which is what `rglob` yields
for an absent directory, raising nothing — it deletes every stored entry and
returns `(new = 0, deleted = previous total)`. -/
theorem c9_refresh_absent_directory (now : Int) (db : Catalog) :
    refresh [] now db =
      ({ db with wallpapers := [], updated_at := some now }, 0, db.wallpapers.length) := by
  unfold refresh
  rw [show walls_new [] db = [] from rfl,
    show walls_deleted [] db = walls_db db from List.filter_eq_self.mpr (fun a _ => rfl)]
  simp only [List.map_nil, List.append_nil, List.length_nil]
  have h3 : db.wallpapers.filter (fun kv => !((walls_db db).contains kv.1)) = [] := by
    refine List.filter_eq_nil_iff.mpr ?_
    intro kv hkv
    have hm : kv.1 ∈ db.wallpapers.map Prod.fst := List.mem_map_of_mem Prod.fst hkv
    have hc : (walls_db db).contains kv.1 = true := List.elem_eq_true_of_mem hm
    rw [hc]
    decide
  rw [h3, show (walls_db db).length = db.wallpapers.length from List.length_map _ _]

/-! ## Refresh lemmas and C6 -/

theorem key_contains_iff (l : List Key) (k : Key) : l.contains k = true ↔ k ∈ l :=
  List.elem_iff

theorem key_contains_true (l : List Key) (k : Key) (h : k ∈ l) : l.contains k = true :=
  List.elem_eq_true_of_mem h

theorem key_contains_false (l : List Key) (k : Key) (h : ¬ k ∈ l) : l.contains k = false := by
  cases hc : l.contains k
  · rfl
  · exact absurd ((key_contains_iff l k).mp hc) h

theorem mem_walls_deleted (walk : List PPath) (db : Catalog) (k : Key) :
    k ∈ walls_deleted walk db ↔ k ∈ walls_db db ∧ ¬ k ∈ walls_disk walk db := by
  unfold walls_deleted
  rw [List.mem_filter]
  constructor
  · rintro ⟨h1, h2⟩
    refine ⟨h1, fun hm => ?_⟩
    rw [key_contains_true _ _ hm] at h2
    cases h2
  · rintro ⟨h1, h2⟩
    exact ⟨h1, by rw [key_contains_false _ _ h2]; rfl⟩

theorem mem_walls_new (walk : List PPath) (db : Catalog) (k : Key) :
    k ∈ walls_new walk db ↔ k ∈ walls_disk walk db ∧ ¬ k ∈ walls_db db := by
  unfold walls_new
  rw [List.mem_filter]
  constructor
  · rintro ⟨h1, h2⟩
    refine ⟨h1, fun hm => ?_⟩
    rw [key_contains_true _ _ hm] at h2
    cases h2
  · rintro ⟨h1, h2⟩
    exact ⟨h1, by rw [key_contains_false _ _ h2]; rfl⟩

theorem filter_map_fst (l : List (Key × Wallp)) (q : Key → Bool) :
    (l.map Prod.fst).filter q = (l.filter (fun kv => q kv.1)).map Prod.fst := by
  induction l with
  | nil => rfl
  | cons kv rest ih =>
    simp only [List.map_cons, List.filter_cons]
    cases hq : q kv.1 <;> simp [hq, ih]

/-- C6: `refresh` inserts default entries for exactly the on-disk eligible
files not stored, deletes exactly the stored keys no longer eligible, keeps
every other entry's metadata byte for byte, sets `updatedAt` to now (leaving
the other record fields alone), returns the pair (inserted count, deleted
count) — the catalog size changes by exactly their difference — and leaves
the entry-key set equal to the on-disk eligible set, so an unchanged
directory yields `(0, 0)` and an untouched catalog. -/
theorem c6_refresh (walk : List PPath) (now : Int) (db : Catalog) :
    (∀ kv, kv ∈ (refresh walk now db).1.wallpapers →
      (kv.1 ∈ walls_db db → kv ∈ db.wallpapers) ∧
      (¬ kv.1 ∈ walls_db db → kv.2 = Wallp.default ∧ kv.1 ∈ walls_disk walk db)) ∧
    (∀ kv, kv ∈ db.wallpapers → kv.1 ∈ walls_disk walk db →
      kv ∈ (refresh walk now db).1.wallpapers) ∧
    (∀ k, ¬ k ∈ walls_db db → k ∈ walls_disk walk db →
      (k, Wallp.default) ∈ (refresh walk now db).1.wallpapers) ∧
    (∀ k, k ∈ (refresh walk now db).1.wallpapers.map Prod.fst ↔ k ∈ walls_disk walk db) ∧
    ((refresh walk now db).1.updated_at = some now ∧
      (refresh walk now db).1.base_directory = db.base_directory ∧
      (refresh walk now db).1.created_at = db.created_at ∧
      (refresh walk now db).1.should_update = db.should_update ∧
      (refresh walk now db).1.startpage = db.startpage) ∧
    ((refresh walk now db).2.1 = (walls_new walk db).length ∧
      (refresh walk now db).2.2 = (walls_deleted walk db).length ∧
      (refresh walk now db).1.wallpapers.length + (walls_deleted walk db).length =
        db.wallpapers.length + (walls_new walk db).length) ∧
    ((∀ k, k ∈ walls_db db ↔ k ∈ walls_disk walk db) →
      (refresh walk now db).2.1 = 0 ∧ (refresh walk now db).2.2 = 0 ∧
      (refresh walk now db).1.wallpapers = db.wallpapers) := by
  have hW : (refresh walk now db).1.wallpapers =
      (db.wallpapers ++ (walls_new walk db).map (fun k => (k, Wallp.default))).filter
        (fun kv => !(walls_deleted walk db).contains kv.1) := rfl
  have hmemW : ∀ kv, kv ∈ (refresh walk now db).1.wallpapers ↔
      ((kv ∈ db.wallpapers ∨ kv ∈ (walls_new walk db).map (fun k => (k, Wallp.default))) ∧
        ¬ kv.1 ∈ walls_deleted walk db) := by
    intro kv
    rw [hW, List.mem_filter, List.mem_append]
    constructor
    · rintro ⟨h1, h2⟩
      refine ⟨h1, fun hm => ?_⟩
      rw [key_contains_true _ _ hm] at h2
      cases h2
    · rintro ⟨h1, h2⟩
      exact ⟨h1, by rw [key_contains_false _ _ h2]; rfl⟩
  refine ⟨?_, ?_, ?_, ?_, ⟨rfl, rfl, rfl, rfl, rfl⟩, ⟨rfl, rfl, ?_⟩, ?_⟩
  · intro kv hkv
    rw [hmemW] at hkv
    obtain ⟨h1 | h1, h2⟩ := hkv
    · refine ⟨fun _ => h1, fun hns => ?_⟩
      exact absurd (List.mem_map_of_mem Prod.fst h1) hns
    · obtain ⟨k, hk, hkeq⟩ := List.mem_map.mp h1
      obtain ⟨hkd, hks⟩ := (mem_walls_new walk db k).mp hk
      constructor
      · intro hs
        rw [← hkeq] at hs
        exact absurd hs hks
      · intro _
        rw [← hkeq]
        exact ⟨rfl, hkd⟩
  · intro kv hkv hkd
    rw [hmemW]
    refine ⟨Or.inl hkv, fun hdel => ?_⟩
    exact ((mem_walls_deleted walk db kv.1).mp hdel).2 hkd
  · intro k hks hkd
    rw [hmemW]
    refine ⟨Or.inr ?_, fun hdel => ?_⟩
    · exact List.mem_map_of_mem _ ((mem_walls_new walk db k).mpr ⟨hkd, hks⟩)
    · exact hks ((mem_walls_deleted walk db k).mp hdel).1
  · intro k
    constructor
    · intro hk
      obtain ⟨kv, hkv, hkeq⟩ := List.mem_map.mp hk
      rw [hmemW] at hkv
      obtain ⟨h1 | h1, h2⟩ := hkv
      · by_contra hkd
        rw [← hkeq] at hkd
        exact h2 ((mem_walls_deleted walk db kv.1).mpr
          ⟨List.mem_map_of_mem Prod.fst h1, hkd⟩)
      · obtain ⟨k2, hk2, hk2eq⟩ := List.mem_map.mp h1
        have := ((mem_walls_new walk db k2).mp hk2).1
        rw [← hkeq, ← hk2eq]
        exact this
    · intro hkd
      by_cases hks : k ∈ walls_db db
      · obtain ⟨kv, hkv, hkeq⟩ := List.mem_map.mp hks
        refine List.mem_map.mpr ⟨kv, ?_, hkeq⟩
        rw [hmemW]
        refine ⟨Or.inl hkv, fun hdel => ?_⟩
        rw [hkeq] at hdel
        exact ((mem_walls_deleted walk db k).mp hdel).2 hkd
      · refine List.mem_map.mpr ⟨(k, Wallp.default), ?_, rfl⟩
        rw [hmemW]
        refine ⟨Or.inr (List.mem_map_of_mem _ ((mem_walls_new walk db k).mpr ⟨hkd, hks⟩)),
          fun hdel => ?_⟩
        exact hks ((mem_walls_deleted walk db k).mp hdel).1
  · -- length accounting
    rw [hW, List.filter_append]
    have hnewkeep : ((walls_new walk db).map (fun k => (k, Wallp.default))).filter
        (fun kv => !(walls_deleted walk db).contains kv.1) =
        (walls_new walk db).map (fun k => (k, Wallp.default)) := by
      refine List.filter_eq_self.mpr ?_
      intro kv hkv
      obtain ⟨k, hk, hkeq⟩ := List.mem_map.mp hkv
      have hks := ((mem_walls_new walk db k).mp hk).2
      have : ¬ kv.1 ∈ walls_deleted walk db := by
        rw [← hkeq]
        intro hdel
        exact hks ((mem_walls_deleted walk db k).mp hdel).1
      rw [key_contains_false _ _ this]
      rfl
    have hkeep : db.wallpapers.filter (fun kv => !(walls_deleted walk db).contains kv.1) =
        db.wallpapers.filter (fun kv => (walls_disk walk db).contains kv.1) := by
      refine List.filter_congr ?_
      intro kv hkv
      cases hd : (walls_disk walk db).contains kv.1
      · have hdel : kv.1 ∈ walls_deleted walk db :=
          (mem_walls_deleted walk db kv.1).mpr ⟨List.mem_map_of_mem Prod.fst hkv,
            fun hm => by rw [key_contains_true _ _ hm] at hd; cases hd⟩
        rw [key_contains_true _ _ hdel]
        rfl
      · have hncon : ¬ kv.1 ∈ walls_deleted walk db := fun hdel =>
          ((mem_walls_deleted walk db kv.1).mp hdel).2 ((key_contains_iff _ _).mp hd)
        rw [key_contains_false _ _ hncon]
        rfl
    have hdellen : (walls_deleted walk db).length =
        (db.wallpapers.filter (fun kv => !(walls_disk walk db).contains kv.1)).length := by
      unfold walls_deleted walls_db
      rw [filter_map_fst, List.length_map]
    rw [List.length_append, hnewkeep, hkeep, List.length_map, hdellen]
    have hpart := @List.length_eq_length_filter_add (Key × Wallp) db.wallpapers
      (fun kv => (walls_disk walk db).contains kv.1)
    omega
  · intro heq
    have hdel : walls_deleted walk db = [] := by
      refine List.filter_eq_nil_iff.mpr ?_
      intro k hk
      rw [key_contains_true _ _ ((heq k).mp hk)]
      decide
    have hnew : walls_new walk db = [] := by
      refine List.filter_eq_nil_iff.mpr ?_
      intro k hk
      cases hs : (walls_db db).contains k
      · exact absurd ((heq k).mpr hk) (fun hm => by
          rw [key_contains_true _ _ hm] at hs; cases hs)
      · simp
    refine ⟨?_, ?_, ?_⟩
    · show (walls_new walk db).length = 0
      rw [hnew]
      rfl
    · show (walls_deleted walk db).length = 0
      rw [hdel]
      rfl
    · rw [hW, hnew, hdel]
      simp only [List.map_nil, List.append_nil]
      exact List.filter_eq_self.mpr (fun kv _ => rfl)

/-- C6 witness: refreshing an unchanged single-file directory returns
`(0, 0)` and keeps the catalog entry (with its non-default metadata) intact. -/
theorem c6_refresh_witness :
    (refresh [[ "d".toList, "a.png".toList ]] 7
      ⟨["d".toList], [("a.png".toList, ⟨true, false, true⟩)], Option.none, Option.none,
        false, ⟨Option.none, Option.none⟩⟩).2.1 = 0 ∧
    (refresh [[ "d".toList, "a.png".toList ]] 7
      ⟨["d".toList], [("a.png".toList, ⟨true, false, true⟩)], Option.none, Option.none,
        false, ⟨Option.none, Option.none⟩⟩).2.2 = 0 ∧
    (refresh [[ "d".toList, "a.png".toList ]] 7
      ⟨["d".toList], [("a.png".toList, ⟨true, false, true⟩)], Option.none, Option.none,
        false, ⟨Option.none, Option.none⟩⟩).1.wallpapers =
      [("a.png".toList, (⟨true, false, true⟩ : Wallp))] :=
  (c6_refresh [[ "d".toList, "a.png".toList ]] 7
    ⟨["d".toList], [("a.png".toList, ⟨true, false, true⟩)], Option.none, Option.none,
      false, ⟨Option.none, Option.none⟩⟩).2.2.2.2.2.2 (fun _ => Iff.rfl)

/-! ## Codec round-trip lemmas -/

theorem lookupField_normalizeFields (tz : Int) (fs : List (String × Value))
    (h : goodKeysFields fs = true) :
    lookupField TYPE_KEY (normalizeFields tz fs) = Option.none := by
  induction fs with
  | nil => rfl
  | cons kv rest ih =>
    obtain ⟨k, v⟩ := kv
    simp only [goodKeysFields, Bool.and_eq_true, bne_iff_ne] at h
    show (if k = TYPE_KEY then some (normalize tz v) else
      lookupField TYPE_KEY (normalizeFields tz rest)) = Option.none
    rw [if_neg h.1.1]
    exact ih h.2

mutual

/-- decoding inverts encoding up to `normalize`, for every value whose
dictionaries avoid the reserved tag key. -/
theorem jsonLoad_encode (tz : Int) : ∀ (x : Value), goodKeys x = true →
    jsonLoad tz (encode x) = Except.ok (normalize tz x)
  | .none, _ => rfl
  | .vbool _, _ => rfl
  | .vint _, _ => rfl
  | .vstr _, _ => rfl
  | .dt _ _, _ => rfl
  | .path _, _ => rfl
  | .wallpaper _ _ _, _ => rfl
  | .target u c, h => by
    have hu : goodKeys u = true := by
      have h2 := h
      simp only [goodKeys, Bool.and_eq_true] at h2
      exact h2.1
    have hc : goodKeys c = true := by
      have h2 := h
      simp only [goodKeys, Bool.and_eq_true] at h2
      exact h2.2
    show jsonLoad tz (.jobj [("updated_at", encode u), ("current", encode c),
      (TYPE_KEY, .jstr (.raw "Target"))]) = Except.ok (.target (normalize tz u) (normalize tz c))
    simp only [jsonLoad, loadFields, jsonLoad_encode tz u hu, jsonLoad_encode tz c hc]
    rfl
  | .vmap fs, h => by
    have hf : goodKeysFields fs = true := by
      have h2 := h
      simp only [goodKeys] at h2
      exact h2
    show jsonLoad tz (.jobj (encodeFields fs)) = Except.ok (.vmap (normalizeFields tz fs))
    simp only [jsonLoad, loadFields_encodeFields tz fs hf]
    simp only [decodeHook, lookupField_normalizeFields tz fs hf]

/-- field-list form of `jsonLoad_encode`. -/
theorem loadFields_encodeFields (tz : Int) : ∀ (fs : List (String × Value)),
    goodKeysFields fs = true →
    loadFields tz (encodeFields fs) = Except.ok (normalizeFields tz fs)
  | [], _ => rfl
  | (k, v) :: rest, h => by
    have hv : goodKeys v = true := by
      have h2 := h
      simp only [goodKeysFields, Bool.and_eq_true] at h2
      exact h2.1.2
    have hr : goodKeysFields rest = true := by
      have h2 := h
      simp only [goodKeysFields, Bool.and_eq_true] at h2
      exact h2.2
    simp only [encodeFields, loadFields, jsonLoad_encode tz v hv,
      loadFields_encodeFields tz rest hr]
    rfl

end

mutual

/-- the reloaded value is Python-equal to the original whenever every
timestamp in the original is timezone-aware. -/
theorem pyEq_normalize (tz : Int) : ∀ (x : Value), awareOnly x = true →
    pyEq (normalize tz x) x = true
  | .none, _ => rfl
  | .vbool b, _ => beq_self_eq_true b
  | .vint n, _ => beq_self_eq_true n
  | .vstr s, _ => beq_self_eq_true s
  | .path s, _ => beq_self_eq_true s
  | .dt w o, h => by
    cases o with
    | none => simp [awareOnly] at h
    | some off =>
      show (w - off + tz - tz == w - off) = true
      simp only [beq_iff_eq]
      omega
  | .wallpaper a b c, _ => by
    show (a == a && b == b && c == c) = true
    simp
  | .target u c, h => by
    have hu : awareOnly u = true := by
      have h2 := h
      simp only [awareOnly, Bool.and_eq_true] at h2
      exact h2.1
    have hc : awareOnly c = true := by
      have h2 := h
      simp only [awareOnly, Bool.and_eq_true] at h2
      exact h2.2
    show (pyEq (normalize tz u) u && pyEq (normalize tz c) c) = true
    rw [pyEq_normalize tz u hu, pyEq_normalize tz c hc]
    rfl
  | .vmap fs, h => by
    have hf : awareFields fs = true := by
      have h2 := h
      simp only [awareOnly] at h2
      exact h2
    show pyEqFields (normalizeFields tz fs) fs = true
    exact pyEqFields_normalize tz fs hf

/-- field-list form of `pyEq_normalize`. -/
theorem pyEqFields_normalize (tz : Int) : ∀ (fs : List (String × Value)),
    awareFields fs = true → pyEqFields (normalizeFields tz fs) fs = true
  | [], _ => rfl
  | (k, v) :: rest, h => by
    have hv : awareOnly v = true := by
      have h2 := h
      simp only [awareFields, Bool.and_eq_true] at h2
      exact h2.1
    have hr : awareFields rest = true := by
      have h2 := h
      simp only [awareFields, Bool.and_eq_true] at h2
      exact h2.2
    show (k == k && pyEq (normalize tz v) v && pyEqFields (normalizeFields tz rest) rest) = true
    rw [pyEq_normalize tz v hv, pyEqFields_normalize tz rest hr]
    simp

end

/-! ## C1 -/

/-- C1: the claim fails on naive timestamps, which is what the program itself
stores (`datetime.now()` is naive): encoding the naive timestamp 0 and
decoding it on a host at UTC offset 60 minutes yields an aware timestamp,
and Python's `==` between a naive and an aware datetime is `False`, so the
decoded value is not structurally equal to the original. -/
theorem c1_counterexample :
    jsonLoad 60 (encode (.dt 0 Option.none)) = Except.ok (.dt 0 (some 60)) ∧
    pyEq (.dt 0 (some 60)) (.dt 0 Option.none) = false := ⟨rfl, rfl⟩

/-- C1 (amended): for every supported value (timestamp, path, nested record,
boolean, integer, string, mapping — mappings not using the reserved tag key as
a dictionary key), decoding the encoding yields a defined value, and that
value is Python-equal to the original provided every timestamp in it is
timezone-aware; a naive timestamp instead decodes to the aware local-time
value `astimezone` produces, which Python's `==` does not equate with the
original. -/
theorem c1_roundtrip (tz : Int) (x : Value) (hg : goodKeys x = true)
    (ha : awareOnly x = true) :
    jsonLoad tz (encode x) = Except.ok (normalize tz x) ∧
    pyEq (normalize tz x) x = true :=
  ⟨jsonLoad_encode tz x hg, pyEq_normalize tz x ha⟩

/-- C1 witness: a nested record holding an aware timestamp, a path, and a
mapping with a boolean, an integer and a string round-trips to a Python-equal
value. -/
theorem c1_roundtrip_witness :
    jsonLoad 0 (encode (.vmap [("t", .target (.dt 5 (some 120)) (.path (.raw "a/b.png"))),
        ("w", .wallpaper true false true), ("n", .vint 3), ("s", .vstr (.raw "x")),
        ("b", .vbool true)])) =
      Except.ok (normalize 0 (.vmap [("t", .target (.dt 5 (some 120)) (.path (.raw "a/b.png"))),
        ("w", .wallpaper true false true), ("n", .vint 3), ("s", .vstr (.raw "x")),
        ("b", .vbool true)])) ∧
    pyEq (normalize 0 (.vmap [("t", .target (.dt 5 (some 120)) (.path (.raw "a/b.png"))),
        ("w", .wallpaper true false true), ("n", .vint 3), ("s", .vstr (.raw "x")),
        ("b", .vbool true)]))
      (.vmap [("t", .target (.dt 5 (some 120)) (.path (.raw "a/b.png"))),
        ("w", .wallpaper true false true), ("n", .vint 3), ("s", .vstr (.raw "x")),
        ("b", .vbool true)]) = true :=
  c1_roundtrip 0 _ (by decide) (by decide)

/-! ## C2 -/

/-- C2: the claim fails: an unknown type tag does make decoding fail, but not
with `DecodeError` — the hook's `getattr(WallpaperDatabase, tag)` raises a raw
AttributeError that `_open` does not catch (`DatabaseDecodeError` is raised
only for `json.JSONDecodeError`, i.e. malformed JSON text). Concretely, a
well-formed document tagged `"frob"` decodes to the uncaught AttributeError,
which is a different failure than `DecodeError`. -/
theorem c2_counterexample :
    openReadPhase 0 (some (.jobj [(TYPE_KEY, .jstr (.raw "frob"))])) =
      Except.error (.uncaught (.attributeError (.raw "frob"))) ∧
    DbError.uncaught (.attributeError (.raw "frob")) ≠ DbError.decodeError :=
  ⟨rfl, by decide⟩

/-- C2 (amended): for every well-formed JSON document whose top-level object
carries a tag outside the closed table (not `"datetime"`, `"PosixPath"`,
`"Wallpaper"` or `"Target"`), decoding fails — but with the hook's raw
AttributeError propagating unchanged, never with `DecodeError`: for
well-formed JSON text, `openReadPhase` cannot produce `DecodeError` at all. -/
theorem c2_unknown_tag (tz : Int) (fs : List (String × JVal))
    (vs : List (String × Value)) (t : String)
    (hload : loadFields tz fs = Except.ok vs)
    (htag : lookupField TYPE_KEY vs = some (.vstr (.raw t)))
    (h1 : t ≠ "datetime") (h2 : t ≠ "PosixPath") (h3 : t ≠ "Wallpaper") (h4 : t ≠ "Target") :
    openReadPhase tz (some (.jobj fs)) =
      Except.error (.uncaught (.attributeError (.raw t))) ∧
    ∀ j : JVal, openReadPhase tz (some j) ≠ Except.error DbError.decodeError := by
  constructor
  · show (match jsonLoad tz (.jobj fs) with
      | Except.ok v => Except.ok v
      | Except.error e => Except.error (DbError.uncaught e)) = _
    have hj : jsonLoad tz (.jobj fs) = decodeHook tz vs := by
      show (match loadFields tz fs with
        | Except.ok vs2 => decodeHook tz vs2
        | Except.error e => Except.error e) = _
      rw [hload]
    rw [hj]
    have hd : decodeHook tz vs = Except.error (.attributeError (.raw t)) := by
      simp only [decodeHook, htag]
      simp [h1, h2, h3, h4]
    rw [hd]
  · intro j hj
    have : (match jsonLoad tz j with
      | Except.ok v => Except.ok v
      | Except.error e => Except.error (DbError.uncaught e)) =
        Except.error DbError.decodeError := hj
    cases hjl : jsonLoad tz j with
    | ok v => rw [hjl] at this; cases this
    | error e => rw [hjl] at this; cases this

/-- C2 witness: a concrete unknown tag `"blob"` next to an ordinary field. -/
theorem c2_unknown_tag_witness :
    openReadPhase 5 (some (.jobj [("x", .jint 1), (TYPE_KEY, .jstr (.raw "blob"))])) =
      Except.error (.uncaught (.attributeError (.raw "blob"))) :=
  (c2_unknown_tag 5 [("x", .jint 1), (TYPE_KEY, .jstr (.raw "blob"))]
    [("x", .vint 1), (TYPE_KEY, .vstr (.raw "blob"))] "blob"
    rfl rfl (by decide) (by decide) (by decide) (by decide)).1

/-! ## Selector round lemmas -/

theorem spRound_unused_nil (disk : List Key) (now : Int) (fuel : Nat) (st : RoundSt)
    (hu : st.unused = []) : spRound disk now fuel st = (Option.none, st) := by
  cases fuel with
  | zero => rfl
  | succ fuel => simp only [spRound, hu]

theorem spRound_cons (disk : List Key) (now : Int) (fuel : Nat) (st : RoundSt)
    (u : Key) (us : List Key) (hu : st.unused = u :: us) :
    spRound disk now (Nat.succ fuel) st =
      (if disk.contains ((u :: us).getD (st.oracle.headD 0 % (u :: us).length) u) then
        (some ((u :: us).getD (st.oracle.headD 0 % (u :: us).length) u),
          { st with
            db := { st.db with
              wallpapers := setUsed ((u :: us).getD (st.oracle.headD 0 % (u :: us).length) u)
                st.db.wallpapers
              startpage := ⟨some now, some (pathStr st.db.base_directory ++ '/' ::
                (u :: us).getD (st.oracle.headD 0 % (u :: us).length) u)⟩ }
            oracle := st.oracle.tail })
      else
        spRound disk now fuel
          { st with
            unused := (u :: us).erase ((u :: us).getD (st.oracle.headD 0 % (u :: us).length) u)
            db := { st.db with should_update := true }
            oracle := st.oracle.tail
            missingLog := ((u :: us).getD (st.oracle.headD 0 % (u :: us).length) u) ::
              st.missingLog }) := by
  simp only [spRound, hu]

theorem pick_mem (u : Key) (us : List Key) (i : Nat) :
    (u :: us).getD (i % (u :: us).length) u ∈ u :: us := by
  have hlt : i % (u :: us).length < (u :: us).length := Nat.mod_lt _ (by simp)
  rw [List.getD_eq_getElem _ _ hlt]
  exact List.getElem_mem hlt

/-- frame facts of one round: the base directory, `createdAt`/`updatedAt` and
the key list of the record survive; the attempt set only shrinks;
`should_update` never reverts to false. -/
theorem spRound_frame (disk : List Key) (now : Int) : ∀ (fuel : Nat) (st : RoundSt),
    (spRound disk now fuel st).2.db.base_directory = st.db.base_directory ∧
    (spRound disk now fuel st).2.db.created_at = st.db.created_at ∧
    (spRound disk now fuel st).2.db.updated_at = st.db.updated_at ∧
    (spRound disk now fuel st).2.unused ⊆ st.unused ∧
    (st.db.should_update = true → (spRound disk now fuel st).2.db.should_update = true)
  | 0, st => ⟨rfl, rfl, rfl, fun _ h => h, fun h => h⟩
  | Nat.succ fuel, st => by
    have hsplit : st.unused = [] ∨ ∃ u us, st.unused = u :: us := by
      cases st.unused with
      | nil => exact Or.inl rfl
      | cons a as => exact Or.inr ⟨a, as, rfl⟩
    rcases hsplit with hu | ⟨u, us, hu⟩
    · rw [spRound_unused_nil disk now _ st hu]
      exact ⟨rfl, rfl, rfl, fun _ h => h, fun h => h⟩
    · rw [spRound_cons disk now fuel st u us hu]
      split
      · exact ⟨rfl, rfl, rfl, fun _ h => h, fun h => h⟩
      · have ih := spRound_frame disk now fuel
          { st with
            unused := (u :: us).erase ((u :: us).getD (st.oracle.headD 0 % (u :: us).length) u)
            db := { st.db with should_update := true }
            oracle := st.oracle.tail
            missingLog := ((u :: us).getD (st.oracle.headD 0 % (u :: us).length) u) ::
              st.missingLog }
        refine ⟨ih.1, ih.2.1, ih.2.2.1, ?_, fun _ => ih.2.2.2.2 rfl⟩
        intro x hx
        have hx2 := ih.2.2.2.1 hx
        rw [hu]
        exact List.erase_subset _ _ hx2

/-- a successful round chose a key from the attempt set whose file exists,
set exactly that entry's flag, and installed the file recording it in
`startpage`. -/
theorem spRound_success (disk : List Key) (now : Int) : ∀ (fuel : Nat) (st : RoundSt)
    (k : Key) (st' : RoundSt), spRound disk now fuel st = (some k, st') →
    k ∈ st.unused ∧ k ∈ disk ∧
    st'.db.wallpapers = setUsed k st.db.wallpapers ∧
    st'.db.startpage = ⟨some now, some (pathStr st.db.base_directory ++ '/' :: k)⟩
  | 0, st, k, st', h => by cases h
  | Nat.succ fuel, st, k, st', h => by
    have hsplit : st.unused = [] ∨ ∃ u us, st.unused = u :: us := by
      cases st.unused with
      | nil => exact Or.inl rfl
      | cons a as => exact Or.inr ⟨a, as, rfl⟩
    rcases hsplit with hu | ⟨u, us, hu⟩
    · rw [spRound_unused_nil disk now _ st hu] at h
      injection h with h1 h2
      cases h1
    · rw [spRound_cons disk now fuel st u us hu] at h
      by_cases hd : disk.contains ((u :: us).getD (st.oracle.headD 0 % (u :: us).length) u) = true
      · rw [if_pos hd] at h
        injection h with h1 h2
        injection h1 with h1
        subst h1
        subst h2
        refine ⟨by rw [hu]; exact pick_mem u us _, (key_contains_iff _ _).mp hd, rfl, rfl⟩
      · rw [if_neg hd] at h
        have ih := spRound_success disk now fuel _ k st' h
        refine ⟨?_, ih.2.1, ih.2.2.1, ih.2.2.2⟩
        rw [hu]
        exact List.erase_subset _ _ ih.1

/-- a round that ran out of candidates found every key of its attempt set
missing on disk, emptied the set, and left the record's entries and
`startpage` untouched. -/
theorem spRound_failure (disk : List Key) (now : Int) : ∀ (fuel : Nat) (st : RoundSt)
    (st' : RoundSt), fuel = st.unused.length → spRound disk now fuel st = (Option.none, st') →
    (∀ x ∈ st.unused, ¬ x ∈ disk) ∧ st'.unused = [] ∧
    st'.db.wallpapers = st.db.wallpapers ∧ st'.db.startpage = st.db.startpage
  | 0, st, st', hf, h => by
    have hu : st.unused = [] := List.length_eq_zero.mp hf.symm
    rw [spRound_unused_nil disk now _ st hu] at h
    injection h with h1 h2
    subst h2
    exact ⟨(by rw [hu]; intro x hx; cases hx), hu, rfl, rfl⟩
  | Nat.succ fuel, st, st', hf, h => by
    have hsplit : st.unused = [] ∨ ∃ u us, st.unused = u :: us := by
      cases st.unused with
      | nil => exact Or.inl rfl
      | cons a as => exact Or.inr ⟨a, as, rfl⟩
    rcases hsplit with hu | ⟨u, us, hu⟩
    · rw [hu] at hf
      simp at hf
    · rw [spRound_cons disk now fuel st u us hu] at h
      by_cases hd : disk.contains ((u :: us).getD (st.oracle.headD 0 % (u :: us).length) u) = true
      · rw [if_pos hd] at h
        cases h
      · rw [if_neg hd] at h
        have hmem : ((u :: us).getD (st.oracle.headD 0 % (u :: us).length) u) ∈ u :: us :=
          pick_mem u us _
        have hlen : fuel = ((u :: us).erase
            ((u :: us).getD (st.oracle.headD 0 % (u :: us).length) u)).length := by
          rw [List.length_erase_of_mem hmem]
          rw [hu] at hf
          simp only [List.length_cons] at hf ⊢
          omega
        have ih := spRound_failure disk now fuel _ st' hlen h
        have hnd : ¬ ((u :: us).getD (st.oracle.headD 0 % (u :: us).length) u) ∈ disk :=
          fun hm => hd (key_contains_true _ _ hm)
        refine ⟨?_, ih.2.1, ih.2.2.1, ih.2.2.2⟩
        rw [hu]
        intro x hx
        by_cases hxe : x = (u :: us).getD (st.oracle.headD 0 % (u :: us).length) u
        · rw [hxe]; exact hnd
        · exact ih.1 x ((List.mem_erase_of_ne hxe).mpr hx)

/-- every key the round logged as missing either was already logged or is an
absent-on-disk member of the attempt set. -/
theorem spRound_log_disk (disk : List Key) (now : Int) : ∀ (fuel : Nat) (st : RoundSt)
    (res : Option Key) (st' : RoundSt), spRound disk now fuel st = (res, st') →
    ∀ x ∈ st'.missingLog, x ∈ st.missingLog ∨ (¬ x ∈ disk ∧ x ∈ st.unused)
  | 0, st, res, st', h => by
    injection h with h1 h2
    subst h2
    exact fun x hx => Or.inl hx
  | Nat.succ fuel, st, res, st', h => by
    have hsplit : st.unused = [] ∨ ∃ u us, st.unused = u :: us := by
      cases st.unused with
      | nil => exact Or.inl rfl
      | cons a as => exact Or.inr ⟨a, as, rfl⟩
    rcases hsplit with hu | ⟨u, us, hu⟩
    · rw [spRound_unused_nil disk now _ st hu] at h
      injection h with h1 h2
      subst h2
      exact fun x hx => Or.inl hx
    · rw [spRound_cons disk now fuel st u us hu] at h
      by_cases hd : disk.contains ((u :: us).getD (st.oracle.headD 0 % (u :: us).length) u) = true
      · rw [if_pos hd] at h
        injection h with h1 h2
        subst h2
        exact fun x hx => Or.inl hx
      · rw [if_neg hd] at h
        intro x hx
        have ih := spRound_log_disk disk now fuel _ res st' h x hx
        rcases ih with hlog | ⟨hxd, hxu⟩
        · rcases List.mem_cons.mp hlog with hxw | hxl
          · refine Or.inr ⟨?_, ?_⟩
            · rw [hxw]
              exact fun hm => hd (key_contains_true _ _ hm)
            · rw [hxw, hu]
              exact pick_mem u us _
          · exact Or.inl hxl
        · refine Or.inr ⟨hxd, ?_⟩
          rw [hu]
          exact List.erase_subset _ _ hxu

/-- with a duplicate-free attempt set, every key the round logged as missing
was removed from the attempt set and stays out of it. -/
theorem spRound_log_removed (disk : List Key) (now : Int) : ∀ (fuel : Nat) (st : RoundSt)
    (res : Option Key) (st' : RoundSt), spRound disk now fuel st = (res, st') →
    st.unused.Nodup →
    ∀ x ∈ st'.missingLog, x ∈ st.missingLog ∨ ¬ x ∈ st'.unused
  | 0, st, res, st', h, _ => by
    injection h with h1 h2
    subst h2
    exact fun x hx => Or.inl hx
  | Nat.succ fuel, st, res, st', h, hnd => by
    have hsplit : st.unused = [] ∨ ∃ u us, st.unused = u :: us := by
      cases st.unused with
      | nil => exact Or.inl rfl
      | cons a as => exact Or.inr ⟨a, as, rfl⟩
    rcases hsplit with hu | ⟨u, us, hu⟩
    · rw [spRound_unused_nil disk now _ st hu] at h
      injection h with h1 h2
      subst h2
      exact fun x hx => Or.inl hx
    · rw [spRound_cons disk now fuel st u us hu] at h
      by_cases hd : disk.contains ((u :: us).getD (st.oracle.headD 0 % (u :: us).length) u) = true
      · rw [if_pos hd] at h
        injection h with h1 h2
        subst h2
        exact fun x hx => Or.inl hx
      · rw [if_neg hd] at h
        have hndu : (u :: us).Nodup := by rw [hu] at hnd; exact hnd
        have hnd1 : ((u :: us).erase
            ((u :: us).getD (st.oracle.headD 0 % (u :: us).length) u)).Nodup :=
          hndu.erase _
        intro x hx
        have ih := spRound_log_removed disk now fuel _ res st' h hnd1 x hx
        rcases ih with hlog | hout
        · rcases List.mem_cons.mp hlog with hxw | hxl
          · refine Or.inr fun hmem => ?_
            have hsub : st'.unused ⊆ ((u :: us).erase
                ((u :: us).getD (st.oracle.headD 0 % (u :: us).length) u)) := by
              have hf := spRound_frame disk now fuel
                { st with
                  unused := (u :: us).erase
                    ((u :: us).getD (st.oracle.headD 0 % (u :: us).length) u)
                  db := { st.db with should_update := true }
                  oracle := st.oracle.tail
                  missingLog := ((u :: us).getD (st.oracle.headD 0 % (u :: us).length) u) ::
                    st.missingLog }
              rw [h] at hf
              exact hf.2.2.2.1
            have hin := hsub hmem
            rw [hxw] at hin
            exact ((List.Nodup.mem_erase_iff hndu).mp hin).1 rfl
          · exact Or.inl hxl
        · exact Or.inr hout

/-- either the round logged nothing new, or it set `should_update`. -/
theorem spRound_log_su (disk : List Key) (now : Int) : ∀ (fuel : Nat) (st : RoundSt),
    (spRound disk now fuel st).2.missingLog = st.missingLog ∨
    (spRound disk now fuel st).2.db.should_update = true
  | 0, st => Or.inl rfl
  | Nat.succ fuel, st => by
    have hsplit : st.unused = [] ∨ ∃ u us, st.unused = u :: us := by
      cases st.unused with
      | nil => exact Or.inl rfl
      | cons a as => exact Or.inr ⟨a, as, rfl⟩
    rcases hsplit with hu | ⟨u, us, hu⟩
    · rw [spRound_unused_nil disk now _ st hu]
      exact Or.inl rfl
    · rw [spRound_cons disk now fuel st u us hu]
      split
      · exact Or.inl rfl
      · refine Or.inr ?_
        have hf := spRound_frame disk now fuel
          { st with
            unused := (u :: us).erase ((u :: us).getD (st.oracle.headD 0 % (u :: us).length) u)
            db := { st.db with should_update := true }
            oracle := st.oracle.tail
            missingLog := ((u :: us).getD (st.oracle.headD 0 % (u :: us).length) u) ::
              st.missingLog }
        exact hf.2.2.2.2 rfl

/-! ## setUsed lemmas -/

theorem setUsed_mark (k : Key) (vs : List Key) (l : List (Key × Wallp)) :
    setUsed k (l.map (fun kv => (kv.1, { kv.2 with startpage_used := vs.contains kv.1 }))) =
      l.map (fun kv => (kv.1, { kv.2 with startpage_used := (k :: vs).contains kv.1 })) := by
  induction l with
  | nil => rfl
  | cons kv rest ih =>
    simp only [List.map_cons, setUsed]
    by_cases he : kv.1 = k
    · rw [if_pos he, ih]
      have hc : (k :: vs).contains kv.1 = true :=
        key_contains_true _ _ (by rw [he]; exact List.mem_cons_self k vs)
      rw [hc]
    · rw [if_neg he, ih]
      have hc : vs.contains kv.1 = (k :: vs).contains kv.1 := by
        cases hv : vs.contains kv.1
        · have : ¬ kv.1 ∈ k :: vs := by
            intro hm
            rcases List.mem_cons.mp hm with h1 | h1
            · exact he h1
            · rw [key_contains_true _ _ h1] at hv
              cases hv
          rw [key_contains_false _ _ this]
        · have : kv.1 ∈ k :: vs :=
            List.mem_cons_of_mem k ((key_contains_iff _ _).mp hv)
          rw [key_contains_true _ _ this]
      rw [hc]

theorem map_mark_nil (l : List (Key × Wallp)) (h : ∀ kv ∈ l, kv.2.startpage_used = false) :
    l.map (fun kv => (kv.1, { kv.2 with startpage_used := ([] : List Key).contains kv.1 })) =
      l := by
  induction l with
  | nil => rfl
  | cons kv rest ih =>
    rw [List.map_cons, ih (fun kv2 h2 => h kv2 (List.mem_cons_of_mem kv h2))]
    obtain ⟨k, w⟩ := kv
    obtain ⟨su, ms, mu⟩ := w
    have hsu : su = false := h (k, ⟨su, ms, mu⟩) (List.mem_cons_self _ _)
    rw [hsu]
    rfl

theorem mark_keys (vs : List Key) (l : List (Key × Wallp)) :
    (l.map (fun kv => (kv.1, { kv.2 with startpage_used := vs.contains kv.1 }))).map Prod.fst =
      l.map Prod.fst := by
  induction l with
  | nil => rfl
  | cons kv rest ih => simp only [List.map_cons, ih]

/-! ## Outer selector lemmas -/

theorem mem_walls_unused (excl : List Key) (db : Catalog) (k : Key) :
    k ∈ walls_unused excl db ↔
      ∃ w, (k, w) ∈ db.wallpapers ∧ isExcluded excl k = false ∧
        w.startpage_used = false := by
  unfold walls_unused walls_included
  constructor
  · intro hk
    obtain ⟨⟨k1, w⟩, hkv, hfst⟩ := List.mem_map.mp hk
    dsimp at hfst
    subst hfst
    have h1 := List.mem_filter.mp hkv
    have h2 := List.mem_filter.mp h1.1
    refine ⟨w, h2.1, ?_, ?_⟩
    · have hb := h2.2
      cases hie : isExcluded excl k1
      · rfl
      · rw [hie] at hb; exact absurd hb (by decide)
    · have hb := h1.2
      cases hflag : w.startpage_used
      · rfl
      · dsimp at hb
        rw [hflag] at hb
        exact absurd hb (by decide)
  · rintro ⟨w, hmem, hexcl, hflag⟩
    refine List.mem_map.mpr ⟨(k, w), ?_, rfl⟩
    refine List.mem_filter.mpr ⟨List.mem_filter.mpr ⟨hmem, ?_⟩, ?_⟩
    · rw [hexcl]; rfl
    · dsimp
      rw [hflag]
      rfl

/-- a call that can see a non-excluded, unused, on-disk entry succeeds in its
first round without a reset, choosing such an entry and flipping exactly its
flag. -/
theorem set_startpage_success (disk : List Key) (now : Int) (oracle : List Nat)
    (excl : List Key) (db : Catalog) (kv : Key × Wallp) (hkv : kv ∈ db.wallpapers)
    (hexcl : isExcluded excl kv.1 = false) (hflag : kv.2.startpage_used = false)
    (hdisk : kv.1 ∈ disk) :
    ∃ out, set_startpage disk now oracle excl db = Except.ok out ∧
      out.didReset = false ∧ out.retval = Option.none ∧
      out.installed ∈ disk ∧ isExcluded excl out.installed = false ∧
      (∃ w, (out.installed, w) ∈ db.wallpapers ∧ w.startpage_used = false) ∧
      out.db.wallpapers = setUsed out.installed db.wallpapers ∧
      out.db.base_directory = db.base_directory ∧
      out.db.created_at = db.created_at ∧ out.db.updated_at = db.updated_at := by
  have hkuI : kv.1 ∈ walls_unused excl db :=
    (mem_walls_unused excl db kv.1).mpr ⟨kv.2, hkv, hexcl, hflag⟩
  have hne : ¬ ((walls_included excl db).length = 0) := by
    intro h0
    have hnil := List.length_eq_zero.mp h0
    have hin : kv ∈ walls_included excl db :=
      List.mem_filter.mpr ⟨hkv, by rw [hexcl]; rfl⟩
    rw [hnil] at hin
    cases hin
  unfold set_startpage
  rw [if_neg hne]
  cases hr : spRound disk now (walls_unused excl db).length
      ⟨walls_unused excl db, db, oracle, []⟩ with
  | mk res st =>
    cases res with
    | none =>
      have hfail := spRound_failure disk now (walls_unused excl db).length
        ⟨walls_unused excl db, db, oracle, []⟩ st rfl hr
      exact absurd hdisk (hfail.1 kv.1 hkuI)
    | some k =>
      have hsucc := spRound_success disk now _ _ k st hr
      have hfr := spRound_frame disk now (walls_unused excl db).length
        ⟨walls_unused excl db, db, oracle, []⟩
      rw [hr] at hfr
      obtain ⟨w2, hw2, hex2, hfl2⟩ := (mem_walls_unused excl db k).mp hsucc.1
      exact ⟨⟨st.db, Option.none, k, st.missingLog, false⟩, rfl, rfl, rfl,
        hsucc.2.1, hex2, ⟨w2, hw2, hfl2⟩, hsucc.2.2.1, hfr.1, hfr.2.1, hfr.2.2.1⟩

/-- every successful call returns `None`, installs an on-disk file, records
its full path in `startpage` with the timestamp, never reports an on-disk
file as missing, and sets `should_update` whenever something was missing. -/
theorem set_startpage_ok (disk : List Key) (now : Int) (oracle : List Nat)
    (excl : List Key) (db : Catalog) (out : SelOut)
    (h : set_startpage disk now oracle excl db = Except.ok out) :
    out.retval = Option.none ∧ out.installed ∈ disk ∧
    out.db.base_directory = db.base_directory ∧
    out.db.startpage = ⟨some now, some (pathStr db.base_directory ++ '/' :: out.installed)⟩ ∧
    (∀ x ∈ out.missing, ¬ x ∈ disk) ∧
    (out.missing ≠ [] → out.db.should_update = true) := by
  unfold set_startpage at h
  by_cases h0 : (walls_included excl db).length = 0
  · rw [if_pos h0] at h; cases h
  · rw [if_neg h0] at h
    cases hr : spRound disk now (walls_unused excl db).length
        ⟨walls_unused excl db, db, oracle, []⟩ with
    | mk res st =>
      rw [hr] at h
      cases res with
      | some k =>
        injection h with h
        subst h
        have hsucc := spRound_success disk now _ _ k st hr
        have hfr := spRound_frame disk now (walls_unused excl db).length
          ⟨walls_unused excl db, db, oracle, []⟩
        rw [hr] at hfr
        refine ⟨rfl, hsucc.2.1, hfr.1, hsucc.2.2.2, ?_, ?_⟩
        · intro x hx
          rcases spRound_log_disk disk now _ _ _ st hr x hx with hin | ⟨hnd2, _⟩
          · cases hin
          · exact hnd2
        · intro hne2
          rcases spRound_log_su disk now (walls_unused excl db).length
              ⟨walls_unused excl db, db, oracle, []⟩ with hlog | hsu
          · rw [hr] at hlog
            exact absurd hlog hne2
          · rw [hr] at hsu
            exact hsu
      | none =>
        replace h : (match spRound disk now ((walls_included excl db).map Prod.fst).length
            ⟨(walls_included excl db).map Prod.fst, resetFlags st.db, st.oracle,
              st.missingLog⟩ with
          | (some k, st2) =>
            Except.ok (⟨st2.db, Option.none, k, st2.missingLog, true⟩ : SelOut)
          | (Option.none, _) => Except.error SpError.noValid) = Except.ok out := h
        cases hr2 : spRound disk now ((walls_included excl db).map Prod.fst).length
            ⟨(walls_included excl db).map Prod.fst, resetFlags st.db, st.oracle,
              st.missingLog⟩ with
        | mk res2 st2 =>
          rw [hr2] at h
          cases res2 with
          | none => cases h
          | some k =>
            injection h with h
            subst h
            have hsucc2 := spRound_success disk now _ _ k st2 hr2
            have hfr1 := spRound_frame disk now (walls_unused excl db).length
              ⟨walls_unused excl db, db, oracle, []⟩
            rw [hr] at hfr1
            have hfr2 := spRound_frame disk now
              ((walls_included excl db).map Prod.fst).length
              ⟨(walls_included excl db).map Prod.fst, resetFlags st.db, st.oracle,
                st.missingLog⟩
            rw [hr2] at hfr2
            have hbase : st.db.base_directory = db.base_directory := hfr1.1
            refine ⟨rfl, hsucc2.2.1, ?_, ?_, ?_, ?_⟩
            · rw [hfr2.1]
              exact hbase
            · rw [hsucc2.2.2.2]
              show TargetS.mk (some now)
                  (some (pathStr st.db.base_directory ++ '/' :: k)) = _
              rw [hbase]
            · intro x hx
              rcases spRound_log_disk disk now _ _ _ st2 hr2 x hx with hin | ⟨hnd2, _⟩
              · rcases spRound_log_disk disk now _ _ _ st hr x hin with hin2 | ⟨hnd3, _⟩
                · cases hin2
                · exact hnd3
              · exact hnd2
            · intro hne2
              rcases spRound_log_su disk now
                  ((walls_included excl db).map Prod.fst).length
                  ⟨(walls_included excl db).map Prod.fst, resetFlags st.db, st.oracle,
                    st.missingLog⟩ with hlog | hsu
              · rw [hr2] at hlog
                have hne3 : st.missingLog ≠ [] := by
                  rw [← hlog]
                  exact hne2
                rcases spRound_log_su disk now (walls_unused excl db).length
                    ⟨walls_unused excl db, db, oracle, []⟩ with hlog1 | hsu1
                · rw [hr] at hlog1
                  exact absurd hlog1 hne3
                · rw [hr] at hsu1
                  have hsu2 : (resetFlags st.db).should_update = true := hsu1
                  exact hfr2.2.2.2.2 hsu2
              · rw [hr2] at hsu
                exact hsu

theorem mem_eligibleKeys (disk : List Key) (excl : List Key) (db : Catalog) (k : Key) :
    k ∈ eligibleKeys disk excl db ↔
      k ∈ db.wallpapers.map Prod.fst ∧ k ∈ disk ∧ isExcluded excl k = false := by
  unfold eligibleKeys
  rw [List.mem_filter]
  constructor
  · rintro ⟨h1, h2⟩
    rw [Bool.and_eq_true] at h2
    refine ⟨h1, (key_contains_iff _ _).mp h2.1, ?_⟩
    cases hie : isExcluded excl k
    · rfl
    · rw [hie] at h2
      exact absurd h2.2 (by decide)
  · rintro ⟨h1, h2, h3⟩
    refine ⟨h1, ?_⟩
    rw [key_contains_true _ _ h2, h3]
    rfl

theorem runSelections_cons (disk : List Key) (now : Int) (excl : List Key)
    (oracle : List Nat) (os : List (List Nat)) (db : Catalog) (out : SelOut)
    (h : set_startpage disk now oracle excl db = Except.ok out) :
    runSelections disk now excl (oracle :: os) db =
      match runSelections disk now excl os out.db with
      | Except.error e => Except.error e
      | Except.ok (db2, ks) => Except.ok (db2, out.installed :: ks) := by
  show (match set_startpage disk now oracle excl db with
    | Except.error e => Except.error e
    | Except.ok o =>
      match runSelections disk now excl os o.db with
      | Except.error e => Except.error e
      | Except.ok (db2, ks) => Except.ok (db2, o.installed :: ks)) = _
  rw [h]

/-- invariant induction for consecutive selections: starting from a record
whose flags mark exactly the already-visited keys `vs`, enough oracles to
cover the rest of the eligible pool produce one new distinct eligible key per
call. -/
theorem runsel_aux (disk : List Key) (now : Int) (excl : List Key) (db0 : Catalog)
    (hndE : (eligibleKeys disk excl db0).Nodup) :
    ∀ (oracles : List (List Nat)) (vs : List Key) (dbv : Catalog),
    dbv.wallpapers = db0.wallpapers.map
      (fun kv => (kv.1, { kv.2 with startpage_used := vs.contains kv.1 })) →
    vs.Nodup → (∀ v ∈ vs, v ∈ eligibleKeys disk excl db0) →
    vs.length + oracles.length = (eligibleKeys disk excl db0).length →
    ∃ db2 ks, runSelections disk now excl oracles dbv = Except.ok (db2, ks) ∧
      ks.Nodup ∧ (∀ k ∈ ks, k ∈ eligibleKeys disk excl db0 ∧ ¬ k ∈ vs) ∧
      ks.length = oracles.length
  | [], vs, dbv, hw, hvnd, hvE, hlen =>
    ⟨dbv, [], rfl, List.nodup_nil, fun k hk => absurd hk (List.not_mem_nil k), rfl⟩
  | oracle :: os, vs, dbv, hw, hvnd, hvE, hlen => by
    have hex : ∃ e, e ∈ eligibleKeys disk excl db0 ∧ ¬ e ∈ vs := by
      by_contra hno
      push_neg at hno
      have hsub : eligibleKeys disk excl db0 ⊆ vs := fun e he => hno e he
      have hle := (List.subperm_of_subset hndE hsub).length_le
      simp only [List.length_cons] at hlen
      omega
    obtain ⟨e, heE, hev⟩ := hex
    obtain ⟨heK, heD, heX⟩ := (mem_eligibleKeys disk excl db0 e).mp heE
    obtain ⟨kv0, hkv0, hfst⟩ := List.mem_map.mp heK
    have hkvdbv : (e, { kv0.2 with startpage_used := false }) ∈ dbv.wallpapers := by
      rw [hw]
      refine List.mem_map.mpr ⟨kv0, hkv0, ?_⟩
      rw [hfst, key_contains_false vs e hev]
    obtain ⟨out, hout, hreset, hret, hinstD, hinstX, ⟨w, hwmem, hwflag⟩, houtW, houtB,
        houtC, houtU⟩ :=
      set_startpage_success disk now oracle excl dbv
        (e, { kv0.2 with startpage_used := false }) hkvdbv heX rfl heD
    have hinstK : out.installed ∈ db0.wallpapers.map Prod.fst := by
      rw [hw] at hwmem
      obtain ⟨kv1, hkv1, heq1⟩ := List.mem_map.mp hwmem
      have h4 : kv1.1 = out.installed := congrArg Prod.fst heq1
      exact h4 ▸ List.mem_map_of_mem Prod.fst hkv1
    have hinstNotVs : ¬ out.installed ∈ vs := by
      rw [hw] at hwmem
      obtain ⟨kv1, hkv1, heq1⟩ := List.mem_map.mp hwmem
      have h2 : ({ kv1.2 with startpage_used := vs.contains kv1.1 } : Wallp) = w :=
        congrArg Prod.snd heq1
      have h3 : vs.contains kv1.1 = false := by
        have h5 : ({ kv1.2 with startpage_used := vs.contains kv1.1 } : Wallp).startpage_used =
            false := by rw [h2, hwflag]
        exact h5
      have h4 : kv1.1 = out.installed := congrArg Prod.fst heq1
      rw [← h4]
      intro hm
      rw [key_contains_true _ _ hm] at h3
      cases h3
    have hinstE : out.installed ∈ eligibleKeys disk excl db0 :=
      (mem_eligibleKeys disk excl db0 out.installed).mpr ⟨hinstK, hinstD, hinstX⟩
    have hw' : out.db.wallpapers = db0.wallpapers.map
        (fun kv => (kv.1,
          { kv.2 with startpage_used := (out.installed :: vs).contains kv.1 })) := by
      rw [houtW, hw, setUsed_mark]
    have hvnd' : (out.installed :: vs).Nodup := List.nodup_cons.mpr ⟨hinstNotVs, hvnd⟩
    have hvE' : ∀ v ∈ out.installed :: vs, v ∈ eligibleKeys disk excl db0 := by
      intro v hv
      rcases List.mem_cons.mp hv with h1 | h1
      · rw [h1]; exact hinstE
      · exact hvE v h1
    have hlen' : (out.installed :: vs).length + os.length =
        (eligibleKeys disk excl db0).length := by
      simp only [List.length_cons] at hlen ⊢
      omega
    obtain ⟨db2, ks, hrun, hksnd, hksE, hkslen⟩ :=
      runsel_aux disk now excl db0 hndE os (out.installed :: vs) out.db hw' hvnd' hvE' hlen'
    refine ⟨db2, out.installed :: ks, ?_, ?_, ?_, ?_⟩
    · rw [runSelections_cons disk now excl oracle os dbv out hout, hrun]
    · refine List.nodup_cons.mpr ⟨?_, hksnd⟩
      intro hm
      exact (hksE out.installed hm).2 (List.mem_cons_self _ _)
    · intro k hk
      rcases List.mem_cons.mp hk with h1 | h1
      · rw [h1]; exact ⟨hinstE, hinstNotVs⟩
      · have h2 := hksE k h1
        exact ⟨h2.1, fun hm => h2.2 (List.mem_cons_of_mem _ hm)⟩
    · simp only [List.length_cons, hkslen]

/-! ## C4 -/

/-- C4: selection fairness. First, for a catalog with duplicate-free keys and
every flag clear, `|E|` consecutive selections — `E` being the eligible
(non-excluded, on-disk) pool — all succeed and install each eligible key
exactly once (the installed keys are distinct and are exactly `E`). Second, a
selection that can still see an eligible entry with a clear flag never resets
and always picks an entry whose flag was still clear. Third, the flags are
reset only when the round exhausted its attempt set: a reset implies every
key of the round-one attempt set was absent on disk. -/
theorem c4_selection_fairness :
    (∀ (disk : List Key) (now : Int) (excl : List Key) (db : Catalog)
      (oracles : List (List Nat)),
      (db.wallpapers.map Prod.fst).Nodup →
      (∀ kv ∈ db.wallpapers, kv.2.startpage_used = false) →
      oracles.length = (eligibleKeys disk excl db).length →
      ∃ db2 ks, runSelections disk now excl oracles db = Except.ok (db2, ks) ∧
        ks.Nodup ∧ (∀ k, k ∈ ks ↔ k ∈ eligibleKeys disk excl db)) ∧
    (∀ (disk : List Key) (now : Int) (oracle : List Nat) (excl : List Key)
      (db : Catalog) (out : SelOut) (kv : Key × Wallp),
      kv ∈ db.wallpapers → isExcluded excl kv.1 = false →
      kv.2.startpage_used = false → kv.1 ∈ disk →
      set_startpage disk now oracle excl db = Except.ok out →
      out.didReset = false ∧
      ∃ w, (out.installed, w) ∈ db.wallpapers ∧ w.startpage_used = false) ∧
    (∀ (disk : List Key) (now : Int) (oracle : List Nat) (excl : List Key)
      (db : Catalog) (out : SelOut),
      set_startpage disk now oracle excl db = Except.ok out →
      out.didReset = true → ∀ x ∈ walls_unused excl db, ¬ x ∈ disk) := by
  refine ⟨?_, ?_, ?_⟩
  · intro disk now excl db oracles hnd hflags hlen
    have hndE : (eligibleKeys disk excl db).Nodup := hnd.filter _
    have hw : db.wallpapers = db.wallpapers.map
        (fun kv => (kv.1, { kv.2 with startpage_used := ([] : List Key).contains kv.1 })) :=
      (map_mark_nil db.wallpapers hflags).symm
    obtain ⟨db2, ks, hrun, hksnd, hksE, hkslen⟩ :=
      runsel_aux disk now excl db hndE oracles [] db hw List.nodup_nil
        (fun v hv => absurd hv (List.not_mem_nil v)) (by simpa using hlen)
    refine ⟨db2, ks, hrun, hksnd, ?_⟩
    have hsub : ks ⊆ eligibleKeys disk excl db := fun k hk => (hksE k hk).1
    have hperm : ks.Perm (eligibleKeys disk excl db) :=
      (List.subperm_of_subset hksnd hsub).perm_of_length_le (by omega)
    exact fun k => hperm.mem_iff
  · intro disk now oracle excl db out kv hkv hexcl hflag hdisk hok
    obtain ⟨out2, hout2, hreset2, _, _, _, hexw, _, _, _, _⟩ :=
      set_startpage_success disk now oracle excl db kv hkv hexcl hflag hdisk
    rw [hok] at hout2
    injection hout2 with hout2
    rw [hout2]
    exact ⟨hreset2, hexw⟩
  · intro disk now oracle excl db out hok hreset
    unfold set_startpage at hok
    by_cases h0 : (walls_included excl db).length = 0
    · rw [if_pos h0] at hok
      cases hok
    · rw [if_neg h0] at hok
      cases hr : spRound disk now (walls_unused excl db).length
          ⟨walls_unused excl db, db, oracle, []⟩ with
      | mk res st =>
        rw [hr] at hok
        cases res with
        | some k =>
          injection hok with hok
          rw [← hok] at hreset
          cases hreset
        | none =>
          have hfail := spRound_failure disk now (walls_unused excl db).length
            ⟨walls_unused excl db, db, oracle, []⟩ st rfl hr
          exact hfail.1

/-- C4 witness: two files, both on disk, no exclusions, fresh flags: the two
consecutive selections succeed and install the two keys exactly once. -/
theorem c4_selection_fairness_witness :
    ∃ db2 ks, runSelections ["a.png".toList, "b.jpg".toList] 9 [] [[1], [0]]
      ⟨["d".toList], [("a.png".toList, Wallp.default), ("b.jpg".toList, Wallp.default)],
        Option.none, Option.none, false, ⟨Option.none, Option.none⟩⟩ =
      Except.ok (db2, ks) ∧ ks.Nodup ∧
      (∀ k, k ∈ ks ↔ k ∈ eligibleKeys ["a.png".toList, "b.jpg".toList] []
        ⟨["d".toList], [("a.png".toList, Wallp.default), ("b.jpg".toList, Wallp.default)],
          Option.none, Option.none, false, ⟨Option.none, Option.none⟩⟩) :=
  c4_selection_fairness.1 ["a.png".toList, "b.jpg".toList] 9 []
    ⟨["d".toList], [("a.png".toList, Wallp.default), ("b.jpg".toList, Wallp.default)],
      Option.none, Option.none, false, ⟨Option.none, Option.none⟩⟩ [[1], [0]]
    (by decide) (by decide) (by decide)

/-! ## C7 -/

/-- C7: a catalog entry whose backing file is absent on disk is never
installed as the destination background (the installed key's file exists on
disk); every key a call reports missing is indeed absent and forces
`shouldUpdate` to true; and within a round over a duplicate-free attempt set,
every key encountered missing came from the attempt set, is absent on disk,
and has been removed from the attempt set. -/
theorem c7_stale_tolerance :
    (∀ (disk : List Key) (now : Int) (oracle : List Nat) (excl : List Key)
      (db : Catalog) (out : SelOut),
      set_startpage disk now oracle excl db = Except.ok out →
      out.installed ∈ disk ∧ (∀ x ∈ out.missing, ¬ x ∈ disk) ∧
      (out.missing ≠ [] → out.db.should_update = true)) ∧
    (∀ (disk : List Key) (now : Int) (fuel : Nat) (st : RoundSt) (res : Option Key)
      (st' : RoundSt), spRound disk now fuel st = (res, st') → st.unused.Nodup →
      st.missingLog = [] →
      ∀ x ∈ st'.missingLog, x ∈ st.unused ∧ ¬ x ∈ disk ∧ ¬ x ∈ st'.unused) := by
  constructor
  · intro disk now oracle excl db out h
    have h2 := set_startpage_ok disk now oracle excl db out h
    exact ⟨h2.2.1, h2.2.2.2.2.1, h2.2.2.2.2.2⟩
  · intro disk now fuel st res st' h hnd hlog x hx
    rcases spRound_log_disk disk now fuel st res st' h x hx with hin | ⟨hndisk, hunused⟩
    · rw [hlog] at hin
      cases hin
    · rcases spRound_log_removed disk now fuel st res st' h hnd x hx with hin | hout
      · rw [hlog] at hin
        cases hin
      · exact ⟨hunused, hndisk, hout⟩

/-- C7 witness: a two-entry catalog whose unused file was deleted from disk:
the call succeeds on the on-disk file, reports the deleted one missing, and
sets `shouldUpdate`. -/
theorem c7_stale_tolerance_witness :
    ("b.jpg".toList : Key) ∈ ["b.jpg".toList] ∧
    (∀ x ∈ [("a.png".toList : Key), "a.png".toList], ¬ x ∈ [("b.jpg".toList : Key)]) ∧
    true = true := by
  have h := c7_stale_tolerance.1 ["b.jpg".toList] 9 [0, 0, 0] []
    ⟨["d".toList], [("a.png".toList, Wallp.default), ("b.jpg".toList, ⟨true, true, false⟩)],
      Option.none, Option.none, false, ⟨Option.none, Option.none⟩⟩
    ⟨⟨["d".toList], [("a.png".toList, Wallp.default), ("b.jpg".toList, ⟨true, true, false⟩)],
      Option.none, Option.none, true,
      ⟨some 9, some ("d/b.jpg".toList)⟩⟩, Option.none, "b.jpg".toList,
      ["a.png".toList, "a.png".toList], true⟩ rfl
  exact ⟨h.1, h.2.1, h.2.2 (by decide)⟩

/-! ## C10 -/

/-- C10: every successful `set_startpage` invocation returns `None`: the
chosen wallpaper's path is recorded only inside the persisted record
(`startpage.current = base_directory / key`), never returned to the caller,
and the CLI layer's success message therefore interpolates `None`. -/
theorem c10_returns_none (disk : List Key) (now : Int) (oracle : List Nat)
    (excl : List Key) (db : Catalog) (out : SelOut)
    (h : set_startpage disk now oracle excl db = Except.ok out) :
    out.retval = Option.none ∧
    out.db.startpage.current = some (pathStr db.base_directory ++ '/' :: out.installed) ∧
    setStartpageMessage out.retval = "Startpage set!\nNone".toList := by
  have h2 := set_startpage_ok disk now oracle excl db out h
  refine ⟨h2.1, ?_, ?_⟩
  · rw [h2.2.2.2.1]
  · rw [h2.1]
    rfl

/-- C10 witness: a concrete successful selection returns `None` while the
record holds the chosen path, and the printed message ends in `None`. -/
theorem c10_returns_none_witness :
    (Option.none : Option Key) = Option.none ∧
    (some ("d/a.png".toList) : Option Key) =
      some (pathStr ["d".toList] ++ '/' :: "a.png".toList) ∧
    setStartpageMessage Option.none = "Startpage set!\nNone".toList := by
  have h := c10_returns_none ["a.png".toList] 9 [0] []
    ⟨["d".toList], [("a.png".toList, Wallp.default)], Option.none, Option.none, false,
      ⟨Option.none, Option.none⟩⟩
    ⟨⟨["d".toList], [("a.png".toList, ⟨true, false, false⟩)], Option.none, Option.none,
      false, ⟨some 9, some ("d/a.png".toList)⟩⟩, Option.none, "a.png".toList, [], false⟩
    rfl
  exact ⟨h.1, h.2.1, h.2.2⟩

end WallSelect
